import Mathlib

/-!
Verification of `src/compute_em_and_f1.py` (`EmAndF1Evaluator`).

The Python class accumulates exact-match / F1 / precision / recall statistics
over an evaluation run, broken down by answer type and by predicting head.
Scores are Python floats; we embed them as rationals (`ℚ`), which models the
exact arithmetic the aggregation performs (sums, maxima, divisions, equality
tests).  Python dicts (here: `defaultdict`s keyed by strings, in insertion
order) are embedded as association lists with unique keys; `defaultdict`
reads are embedded as lookups with the dict's default value.  Python
exceptions are embedded with `Except` / `Option` results.

External collaborators (`answer_json_to_strings` from `src.evaluate`, the
scorer `compute_em_and_f1`) are opaque parameters, as in the source, where
they are imported functions.
-/

namespace EmF1

/-- The ASCII whitespace characters removed by Python's `str.strip()`. -/
def pyIsSpace (c : Char) : Bool :=
  c == ' ' || c == '\t' || c == '\n' || c == '\r' || c == '\x0b' || c == '\x0c'

/-- Python `s.strip()`: remove leading and trailing whitespace characters. -/
def pyStrip (s : String) : String :=
  String.mk (((s.toList.dropWhile pyIsSpace).reverse.dropWhile pyIsSpace).reverse)

/-- One `(em_score, f1_score, p_score, r_score)` quadruple as returned by the
external scorer `metric_fn`. -/
structure Score where
  em : ℚ
  f1 : ℚ
  p : ℚ
  r : ℚ
deriving DecidableEq, Repr

/-- Componentwise maximum of two score quadruples. -/
def smax (a b : Score) : Score :=
  ⟨max a.em b.em, max a.f1 b.f1, max a.p b.p, max a.r b.r⟩

/-- Python exceptions that the embedded code can raise or propagate.
`raised code` stands for an arbitrary exception raised by an external
collaborator (scorer or normalizer). -/
inductive PyErr where
  | typeError
  | valueError
  | indexError
  | raised (code : ℕ)
deriving DecidableEq, Repr

/-- The guard on line 161 of the source:
`len(ground_truth) == 0 or (len(ground_truth) > 0 and ground_truth[0].strip() != "")`.
A ground truth participates in the maxima comparison iff its answer-string
list is empty, or its first answer string is not whitespace-only. -/
def comparisonIncluded (ground_truth : List String) : Bool :=
  match ground_truth with
  | [] => true
  | s :: _ => pyStrip s != ""

/-- The loop state of `metric_max_over_ground_truths`: the four running
maxima and the maximizing index (`-1` until some index is recorded). -/
structure MMState where
  max_em : ℚ
  max_f1 : ℚ
  max_p : ℚ
  max_r : ℚ
  maximizing_index : ℤ
deriving DecidableEq, Repr

/-- The four running maxima of an `MMState`, as a quadruple. -/
def stateMax (s : MMState) : Score :=
  ⟨s.max_em, s.max_f1, s.max_p, s.max_r⟩

/-- One iteration of the `for i, ground_truth in enumerate(ground_truths)`
loop body (lines 161-167): if the ground truth is included in the
comparison, update the four maxima and, when the ground truth's own score
equals all four updated maxima, record `i` as the maximizing index. -/
def mmStep (i : ℕ) (ground_truth : List String) (sc : Score) (s : MMState) : MMState :=
  if comparisonIncluded ground_truth then
    let max_em := max s.max_em sc.em
    let max_f1 := max s.max_f1 sc.f1
    let max_p := max s.max_p sc.p
    let max_r := max s.max_r sc.r
    { max_em := max_em, max_f1 := max_f1, max_p := max_p, max_r := max_r,
      maximizing_index :=
        if max_em = sc.em ∧ max_f1 = sc.f1 ∧ max_p = sc.p ∧ max_r = sc.r then (i : ℤ)
        else s.maximizing_index }
  else s

/-- The enumerated loop of `metric_max_over_ground_truths`; `n` is the index
`enumerate` gives to the first remaining element.  The scorer runs on every
ground truth, and a scorer exception aborts the loop and propagates. -/
def mmLoop {π : Type} (metric_fn : π → List String → Except PyErr Score) (prediction : π) :
    ℕ → List (List String) → MMState → Except PyErr MMState
  | _, [], s => .ok s
  | i, gt :: rest, s =>
    match metric_fn prediction gt with
    | .error e => .error e
    | .ok sc => mmLoop metric_fn prediction (i + 1) rest (mmStep i gt sc s)

/-- `EmAndF1Evaluator.metric_max_over_ground_truths` (lines 145-169). -/
def metric_max_over_ground_truths {π : Type}
    (metric_fn : π → List String → Except PyErr Score) (prediction : π)
    (ground_truths : List (List String)) : Except PyErr (Score × ℤ) :=
  match mmLoop metric_fn prediction 0 ground_truths ⟨0, 0, 0, 0, -1⟩ with
  | .error e => .error e
  | .ok s => .ok (stateMax s, s.maximizing_index)

/-- Wrap a total scorer as an exception-free `metric_fn`. -/
def pureFn {π : Type} (f : π → List String → Score) : π → List String → Except PyErr Score :=
  fun q g => .ok (f q g)

/-! ### Specification-side characterization of the maximization loop -/

/-- Fold the componentwise maximum of the scores of the comparison-included
ground truths of `l` on top of `base`. -/
def allMaxFrom {π : Type} (f : π → List String → Score) (p : π) (base : Score)
    (l : List (List String)) : Score :=
  (l.filter comparisonIncluded).foldl (fun m g => smax m (f p g)) base

/-- The running maximum just after ground truth `i` has been processed,
starting from `base`. -/
def prefixMaxFrom {π : Type} (f : π → List String → Score) (p : π) (base : Score)
    (l : List (List String)) (i : ℕ) : Score :=
  allMaxFrom f p base (l.take (i + 1))

/-- Ground truth `i` is recorded as maximizing: it is included in the
comparison and its own score equals the running maximum (after updating) in
all four components simultaneously. -/
def recordedFrom {π : Type} (f : π → List String → Score) (p : π) (base : Score)
    (l : List (List String)) (i : ℕ) : Bool :=
  comparisonIncluded (l.getD i []) &&
    decide (f p (l.getD i []) = prefixMaxFrom f p base l i)

/-- The indices recorded as maximizing, in iteration order. -/
def idxList {π : Type} (f : π → List String → Score) (p : π) (base : Score)
    (l : List (List String)) : List ℕ :=
  (List.range l.length).filter (recordedFrom f p base l)

/-- Per the spec: the running maximum over the first `i + 1` ground truths
(only comparison-included ones participate), starting from `(0,0,0,0)`. -/
def specRunningMax {π : Type} (f : π → List String → Score) (p : π)
    (l : List (List String)) (i : ℕ) : Score :=
  prefixMaxFrom f p ⟨0, 0, 0, 0⟩ l i

/-- Per the spec: ground truth `i`'s own em, f1, p and r each equal the
corresponding running maximum after updating all four maxima. -/
def specIsRecorded {π : Type} (f : π → List String → Score) (p : π)
    (l : List (List String)) (i : ℕ) : Bool :=
  recordedFrom f p ⟨0, 0, 0, 0⟩ l i

/-- Per the spec: the maxima finally returned. -/
def specMaxScore {π : Type} (f : π → List String → Score) (p : π)
    (l : List (List String)) : Score :=
  allMaxFrom f p ⟨0, 0, 0, 0⟩ l

/-- Per the spec: the *last* index (in iteration order) whose score
simultaneously equals the running maximum in all four components, and `-1`
when there is none. -/
def specMaxIndex {π : Type} (f : π → List String → Score) (p : π)
    (l : List (List String)) : ℤ :=
  match (idxList f p ⟨0, 0, 0, 0⟩ l).getLast? with
  | some i => (i : ℤ)
  | none => -1

lemma allMaxFrom_nil {π : Type} (f : π → List String → Score) (p : π) (base : Score) :
    allMaxFrom f p base [] = base := rfl

lemma allMaxFrom_cons_pos {π : Type} (f : π → List String → Score) (p : π) (base : Score)
    (g : List String) (rest : List (List String)) (h : comparisonIncluded g = true) :
    allMaxFrom f p base (g :: rest) = allMaxFrom f p (smax base (f p g)) rest := by
  simp [allMaxFrom, List.filter_cons, h]

lemma allMaxFrom_cons_neg {π : Type} (f : π → List String → Score) (p : π) (base : Score)
    (g : List String) (rest : List (List String)) (h : comparisonIncluded g = false) :
    allMaxFrom f p base (g :: rest) = allMaxFrom f p base rest := by
  simp [allMaxFrom, List.filter_cons, h]

lemma recordedFrom_cons_succ_pos {π : Type} (f : π → List String → Score) (p : π)
    (base : Score) (g : List String) (rest : List (List String)) (i : ℕ)
    (h : comparisonIncluded g = true) :
    recordedFrom f p base (g :: rest) (i + 1) = recordedFrom f p (smax base (f p g)) rest i := by
  simp only [recordedFrom, List.getD_cons_succ, prefixMaxFrom, List.take_succ_cons,
    allMaxFrom_cons_pos f p base g _ h]

lemma recordedFrom_cons_succ_neg {π : Type} (f : π → List String → Score) (p : π)
    (base : Score) (g : List String) (rest : List (List String)) (i : ℕ)
    (h : comparisonIncluded g = false) :
    recordedFrom f p base (g :: rest) (i + 1) = recordedFrom f p base rest i := by
  simp only [recordedFrom, List.getD_cons_succ, prefixMaxFrom, List.take_succ_cons,
    allMaxFrom_cons_neg f p base g _ h]

lemma recordedFrom_cons_zero_pos {π : Type} (f : π → List String → Score) (p : π)
    (base : Score) (g : List String) (rest : List (List String))
    (h : comparisonIncluded g = true) :
    recordedFrom f p base (g :: rest) 0 = decide (f p g = smax base (f p g)) := by
  simp [recordedFrom, prefixMaxFrom, allMaxFrom, List.filter_cons, h]

lemma recordedFrom_cons_zero_neg {π : Type} (f : π → List String → Score) (p : π)
    (base : Score) (g : List String) (rest : List (List String))
    (h : comparisonIncluded g = false) :
    recordedFrom f p base (g :: rest) 0 = false := by
  simp [recordedFrom, h]

lemma getLast?_map {β γ : Type} (f : β → γ) : ∀ (l : List β),
    (l.map f).getLast? = l.getLast?.map f
  | [] => rfl
  | [_] => rfl
  | _ :: b :: l => by
    rw [List.map_cons, List.getLast?_cons_cons, List.map_cons, List.getLast?_cons_cons,
      ← List.map_cons, getLast?_map f (b :: l)]

lemma idxList_cons {π : Type} (f : π → List String → Score) (p : π) (base : Score)
    (g : List String) (rest : List (List String)) :
    idxList f p base (g :: rest) =
      (if recordedFrom f p base (g :: rest) 0 then [0] else []) ++
        (idxList f p (if comparisonIncluded g then smax base (f p g) else base) rest).map
          (· + 1) := by
  have hrange : List.range (rest.length + 1) = 0 :: (List.range rest.length).map (· + 1) := by
    simpa using List.range_succ_eq_map rest.length
  have hfilt : (List.range rest.length).filter
        (fun i => recordedFrom f p base (g :: rest) (i + 1)) =
      idxList f p (if comparisonIncluded g then smax base (f p g) else base) rest := by
    unfold idxList
    apply List.filter_congr
    intro i _
    cases hg : comparisonIncluded g with
    | true => simpa using recordedFrom_cons_succ_pos f p base g rest i hg
    | false => simpa using recordedFrom_cons_succ_neg f p base g rest i hg
  simp only [idxList, List.length_cons, hrange, List.filter_cons, List.filter_map]
  rw [show (recordedFrom f p base (g :: rest) ∘ fun x => x + 1) =
      (fun i => recordedFrom f p base (g :: rest) (i + 1)) from rfl, hfilt]
  cases hrec : recordedFrom f p base (g :: rest) 0 with
  | true => simp [idxList]
  | false => simp [idxList]

lemma smax_self_iff (a b : Score) :
    (b = smax a b) ↔ (max a.em b.em = b.em ∧ max a.f1 b.f1 = b.f1 ∧
      max a.p b.p = b.p ∧ max a.r b.r = b.r) := by
  constructor
  · intro h
    exact ⟨(congrArg Score.em h).symm, (congrArg Score.f1 h).symm,
      (congrArg Score.p h).symm, (congrArg Score.r h).symm⟩
  · intro ⟨h1, h2, h3, h4⟩
    cases b
    simp only [smax] at *
    simp [h1, h2, h3, h4]

lemma idx_match_combine (c0 : Prop) [Decidable c0] (L : List ℕ) (n : ℕ) (fb : ℤ) :
    (match ((if c0 then [0] else []) ++ L.map (· + 1)).getLast? with
      | some j => ((n + j : ℕ) : ℤ)
      | none => fb)
    = match L.getLast? with
      | some i => ((n + 1 + i : ℕ) : ℤ)
      | none => if c0 then (n : ℤ) else fb := by
  cases hL : L.getLast? with
  | none =>
    have hnil : L = [] := List.getLast?_eq_none_iff.mp hL
    subst hnil
    by_cases hc : c0
    · simp [hc]
    · simp [hc]
  | some i =>
    have hne : L.map (· + 1) ≠ [] := by
      intro hmap
      rw [List.map_eq_nil_iff] at hmap
      subst hmap
      simp at hL
    rw [List.getLast?_append_of_ne_nil _ hne, getLast?_map, hL]
    simp only [Option.map_some']
    have : ((n + (i + 1) : ℕ) : ℤ) = ((n + 1 + i : ℕ) : ℤ) := by
      congr 1
      omega
    simp [this]

/-- Pure-loop characterization of `mmLoop`: with an exception-free scorer the
loop returns the componentwise maxima of the included scores folded on top of
the incoming maxima, and the maximizing index is the last recorded index (if
any; otherwise the incoming index survives). -/
theorem mmLoop_pure {π : Type} (f : π → List String → Score) (p : π) :
    ∀ (l : List (List String)) (n : ℕ) (s : MMState),
    mmLoop (pureFn f) p n l s =
      .ok ⟨(allMaxFrom f p (stateMax s) l).em, (allMaxFrom f p (stateMax s) l).f1,
           (allMaxFrom f p (stateMax s) l).p, (allMaxFrom f p (stateMax s) l).r,
           match (idxList f p (stateMax s) l).getLast? with
           | some i => ((n + i : ℕ) : ℤ)
           | none => s.maximizing_index⟩ := by
  intro l
  induction l with
  | nil =>
    intro n s
    simp [mmLoop, allMaxFrom, idxList, stateMax]
  | cons g rest ih =>
    intro n s
    have hstep : mmLoop (pureFn f) p n (g :: rest) s =
        mmLoop (pureFn f) p (n + 1) rest (mmStep n g (f p g) s) := rfl
    rw [hstep, ih (n + 1) (mmStep n g (f p g) s)]
    refine congrArg Except.ok ?_
    by_cases hg : comparisonIncluded g
    · have hsm : stateMax (mmStep n g (f p g) s) = smax (stateMax s) (f p g) := by
        simp [mmStep, hg, stateMax, smax]
      have hall : allMaxFrom f p (stateMax s) (g :: rest) =
          allMaxFrom f p (smax (stateMax s) (f p g)) rest :=
        allMaxFrom_cons_pos f p _ g rest hg
      have hidx := idxList_cons f p (stateMax s) g rest
      rw [hg, if_pos rfl] at hidx
      have h0 : recordedFrom f p (stateMax s) (g :: rest) 0 =
          decide (f p g = smax (stateMax s) (f p g)) :=
        recordedFrom_cons_zero_pos f p _ g rest hg
      have hmidx : (mmStep n g (f p g) s).maximizing_index =
          if f p g = smax (stateMax s) (f p g) then (n : ℤ) else s.maximizing_index := by
        simp only [mmStep, hg, if_true]
        exact if_congr ((smax_self_iff (stateMax s) (f p g)).symm) rfl rfl
      rw [hsm, hall, hidx, h0, hmidx]
      simp only [MMState.mk.injEq, true_and]
      rw [show (if (decide (f p g = smax (stateMax s) (f p g))) = true then [0] else ([] : List ℕ))
          = if f p g = smax (stateMax s) (f p g) then [0] else [] by simp]
      exact (idx_match_combine (f p g = smax (stateMax s) (f p g))
        (idxList f p (smax (stateMax s) (f p g)) rest) n s.maximizing_index).symm
    · have hg' : comparisonIncluded g = false := by simpa using hg
      have hsm : mmStep n g (f p g) s = s := by simp [mmStep, hg']
      have hall : allMaxFrom f p (stateMax s) (g :: rest) =
          allMaxFrom f p (stateMax s) rest :=
        allMaxFrom_cons_neg f p _ g rest hg'
      have hidx := idxList_cons f p (stateMax s) g rest
      rw [hg', recordedFrom_cons_zero_neg f p _ g rest hg'] at hidx
      simp only [Bool.false_eq_true, if_false] at hidx
      rw [hsm, hall, hidx]
      simp only [MMState.mk.injEq, true_and]
      have h := idx_match_combine False
        (idxList f p (stateMax s) rest) n s.maximizing_index
      simp only [if_false, List.nil_append] at h
      exact h.symm

lemma mmLoop_error_propagates {π : Type} (mf : π → List String → Except PyErr Score) (p : π) :
    ∀ (l1 : List (List String)) (n : ℕ) (g : List String) (l2 : List (List String))
      (st : MMState) (e : PyErr),
      (∀ g' ∈ l1, ∃ sc, mf p g' = .ok sc) → mf p g = .error e →
      mmLoop mf p n (l1 ++ g :: l2) st = .error e
  | [], n, g, l2, st, e, _, hg => by simp [mmLoop, hg]
  | a :: l1', n, g, l2, st, e, hall, hg => by
    obtain ⟨sc, hsc⟩ := hall a (List.mem_cons_self a l1')
    have hstep : mmLoop mf p n ((a :: l1') ++ g :: l2) st =
        mmLoop mf p (n + 1) (l1' ++ g :: l2) (mmStep n a sc st) := by
      simp [mmLoop, hsc]
    rw [hstep]
    exact mmLoop_error_propagates mf p l1' (n + 1) g l2 (mmStep n a sc st) e
      (fun g' hg' => hall g' (List.mem_cons_of_mem a hg')) hg

lemma getLast?_mem_of_eq_some {β : Type} {l : List β} {a : β} (h : l.getLast? = some a) :
    a ∈ l := by
  have hx : a ∈ l.getLast? := by rw [h]; exact rfl
  obtain ⟨hne, hEq⟩ := List.mem_getLast?_eq_getLast hx
  rw [hEq]
  exact List.getLast_mem hne

/-- C1: `metric_max_over_ground_truths` returns the componentwise maxima of
the comparison-included scores, and the maximizing index is exactly the
*last* index (in iteration order) whose score simultaneously equals the
running maximum in all four components (`-1` when there is none); in
particular, any index the loop returns satisfies the simultaneous
four-component equality, so an index that raises only some components to a
new maximum is never recorded. -/
theorem metric_max_selects_last_simultaneous_max {π : Type}
    (f : π → List String → Score) (p : π) (l : List (List String)) :
    metric_max_over_ground_truths (pureFn f) p l
      = .ok (specMaxScore f p l, specMaxIndex f p l)
    ∧ ∀ i : ℕ, specMaxIndex f p l = (i : ℤ) → specIsRecorded f p l i = true := by
  have hbase : stateMax ⟨0, 0, 0, 0, -1⟩ = (⟨0, 0, 0, 0⟩ : Score) := rfl
  constructor
  · unfold metric_max_over_ground_truths
    rw [mmLoop_pure f p l 0 ⟨0, 0, 0, 0, -1⟩]
    simp only [hbase]
    rcases hlast : (idxList f p ⟨0, 0, 0, 0⟩ l).getLast? with _ | i
    · simp [specMaxScore, specMaxIndex, stateMax, hlast]
    · simp [specMaxScore, specMaxIndex, stateMax, hlast]
  · intro i hi
    unfold specMaxIndex at hi
    rcases hlast : (idxList f p ⟨0, 0, 0, 0⟩ l).getLast? with _ | j
    · rw [hlast] at hi
      simp at hi
    · rw [hlast] at hi
      simp only [Int.natCast_inj] at hi
      have hj : j = i := by exact_mod_cast hi
      subst hj
      have hmem : j ∈ idxList f p ⟨0, 0, 0, 0⟩ l := getLast?_mem_of_eq_some hlast
      unfold idxList at hmem
      rw [List.mem_filter] at hmem
      exact hmem.2

/-- Scorer used by concrete witnesses: errors on the whitespace-only
singleton ground truth, succeeds elsewhere. -/
def witnessScorer : String → List String → Except PyErr Score :=
  fun _ g => if g = [" "] then .error (.raised 7) else .ok ⟨0, 0, 0, 0⟩

/-- Witness for C1 at a concrete input. -/
theorem metric_max_selects_last_simultaneous_max_witness :
    specIsRecorded (fun (_ : String) (_ : List String) => (⟨1, 1, 1, 1⟩ : Score)) "x" [["a"]] 0
      = true :=
  (metric_max_selects_last_simultaneous_max
      (fun (_ : String) (_ : List String) => (⟨1, 1, 1, 1⟩ : Score)) "x" [["a"]]).2 0 (by decide)

/-- C3: a ground truth with a non-empty answer-string list whose first
answer string strips to the empty string is excluded from the comparison:
the loop step leaves the maxima and the maximizing index unchanged for it —
yet the scorer is still invoked on it (a scorer exception on such a ground
truth propagates).  A ground truth with an empty answer-string list is *not*
excluded: it passes the guard and updates the maxima. -/
theorem excluded_ground_truth_scored_but_skipped {π : Type} :
    (∀ (s : String) (rest : List String), pyStrip s = "" →
      comparisonIncluded (s :: rest) = false)
    ∧ (∀ (i : ℕ) (gt : List String) (sc : Score) (st : MMState),
        comparisonIncluded gt = false → mmStep i gt sc st = st)
    ∧ comparisonIncluded ([] : List String) = true
    ∧ (∀ (i : ℕ) (sc : Score) (st : MMState),
        stateMax (mmStep i ([] : List String) sc st) = smax (stateMax st) sc)
    ∧ (∀ (mf : π → List String → Except PyErr Score) (p : π) (n : ℕ)
        (l1 : List (List String)) (g : List String) (l2 : List (List String))
        (st : MMState) (e : PyErr),
        (∀ g' ∈ l1, ∃ sc, mf p g' = .ok sc) → mf p g = .error e →
        mmLoop mf p n (l1 ++ g :: l2) st = .error e) := by
  refine ⟨?_, ?_, rfl, ?_, ?_⟩
  · intro s rest h
    simp [comparisonIncluded, h]
  · intro i gt sc st h
    simp [mmStep, h]
  · intro i sc st
    simp [mmStep, comparisonIncluded, stateMax, smax]
  · intro mf p n l1 g l2 st e hall hg
    exact mmLoop_error_propagates mf p l1 n g l2 st e hall hg

/-- Witness for C3 at concrete inputs: `[" "]` is excluded (its first answer
string is whitespace-only), the step leaves the state unchanged on it, and a
scorer exception on it still propagates — so the scorer did run on it. -/
theorem excluded_ground_truth_scored_but_skipped_witness :
    comparisonIncluded [" "] = false
    ∧ mmStep 0 [" "] ⟨1, 1, 1, 1⟩ ⟨0, 0, 0, 0, -1⟩ = ⟨0, 0, 0, 0, -1⟩
    ∧ mmLoop witnessScorer "x" 0 [["a"], [" "]] ⟨0, 0, 0, 0, -1⟩ = .error (.raised 7) := by
  have h := excluded_ground_truth_scored_but_skipped (π := String)
  have hexc : comparisonIncluded [" "] = false := h.1 " " [] (by decide)
  refine ⟨hexc, h.2.1 0 [" "] ⟨1, 1, 1, 1⟩ ⟨0, 0, 0, 0, -1⟩ hexc, ?_⟩
  exact h.2.2.2.2 witnessScorer "x" 0 [["a"]] [" "] [] ⟨0, 0, 0, 0, -1⟩ (.raised 7)
    (by
      intro g' hg'
      simp only [List.mem_singleton] at hg'
      subst hg'
      exact ⟨⟨0, 0, 0, 0⟩, rfl⟩)
    rfl

lemma mmLoop_index_cases {π : Type} (mf : π → List String → Except PyErr Score) (p : π) :
    ∀ (l : List (List String)) (n : ℕ) (st st' : MMState),
      mmLoop mf p n l st = .ok st' →
      st'.maximizing_index = st.maximizing_index ∨
        ((n : ℤ) ≤ st'.maximizing_index ∧ st'.maximizing_index < (n : ℤ) + l.length)
  | [], n, st, st', h => by
    simp only [mmLoop] at h
    cases h
    left
    rfl
  | g :: rest, n, st, st', h => by
    simp only [mmLoop] at h
    cases hmf : mf p g with
    | error e => rw [hmf] at h; cases h
    | ok sc =>
      rw [hmf] at h
      have hrec := mmLoop_index_cases mf p rest (n + 1) (mmStep n g sc st) st' h
      have hstep : (mmStep n g sc st).maximizing_index = st.maximizing_index ∨
          (mmStep n g sc st).maximizing_index = (n : ℤ) := by
        unfold mmStep
        by_cases hg : comparisonIncluded g
        · simp only [hg, if_true]
          by_cases hc : max st.max_em sc.em = sc.em ∧ max st.max_f1 sc.f1 = sc.f1 ∧
              max st.max_p sc.p = sc.p ∧ max st.max_r sc.r = sc.r
          · right; rw [if_pos hc]
          · left; rw [if_neg hc]
        · left; simp [hg]
      rcases hrec with hrec | ⟨h1, h2⟩
      · rw [hrec]
        rcases hstep with hs | hs
        · left; exact hs
        · right
          rw [hs]
          constructor
          · exact le_refl _
          · simp only [List.length_cons]
            push_cast
            omega
      · right
        constructor
        · push_cast at h1 ⊢
          omega
        · simp only [List.length_cons] at h2 ⊢
          push_cast at h2 ⊢
          omega

lemma mmLoop_no_record {π : Type} (mf : π → List String → Except PyErr Score) (p : π)
    (hnn : ∀ g sc, mf p g = .ok sc → 0 ≤ sc.em ∧ 0 ≤ sc.f1 ∧ 0 ≤ sc.p ∧ 0 ≤ sc.r) :
    ∀ (l : List (List String)) (n : ℕ) (st st' : MMState),
      mmLoop mf p n l st = .ok st' → st'.maximizing_index = -1 →
      stateMax st = ⟨0, 0, 0, 0⟩ → st' = st
  | [], n, st, st', h, _, _ => by
    simp only [mmLoop] at h
    cases h
    rfl
  | g :: rest, n, st, st', h, hidx, hmax => by
    simp only [mmLoop] at h
    cases hmf : mf p g with
    | error e => rw [hmf] at h; cases h
    | ok sc =>
      rw [hmf] at h
      by_cases hg : comparisonIncluded g
      · exfalso
        obtain ⟨h1, h2, h3, h4⟩ := hnn g sc hmf
        have hem : st.max_em = 0 := congrArg Score.em hmax
        have hf1 : st.max_f1 = 0 := congrArg Score.f1 hmax
        have hp : st.max_p = 0 := congrArg Score.p hmax
        have hr : st.max_r = 0 := congrArg Score.r hmax
        have hcond : max st.max_em sc.em = sc.em ∧ max st.max_f1 sc.f1 = sc.f1 ∧
            max st.max_p sc.p = sc.p ∧ max st.max_r sc.r = sc.r := by
          rw [hem, hf1, hp, hr]
          exact ⟨max_eq_right h1, max_eq_right h2, max_eq_right h3, max_eq_right h4⟩
        have hstepidx : (mmStep n g sc st).maximizing_index = (n : ℤ) := by
          simp [mmStep, hg, hcond]
        rcases mmLoop_index_cases mf p rest (n + 1) (mmStep n g sc st) st' h with hc | ⟨hc, _⟩
        · rw [hidx, hstepidx] at hc
          omega
        · rw [hidx] at hc
          push_cast at hc
          omega
      · have hg' : comparisonIncluded g = false := by simpa using hg
        have hstep : mmStep n g sc st = st := by simp [mmStep, hg']
        refine mmLoop_no_record mf p hnn rest (n + 1) st st' ?_ hidx hmax
        rw [← hstep]
        exact h

/-- A successful `metric_max_over_ground_truths` returns an index in
`[-1, ground_truths.length)`. -/
lemma metric_max_index_bounds {π : Type} (mf : π → List String → Except PyErr Score) (p : π)
    (l : List (List String)) (m : Score) (idx : ℤ)
    (h : metric_max_over_ground_truths mf p l = .ok (m, idx)) :
    -1 ≤ idx ∧ idx < l.length := by
  unfold metric_max_over_ground_truths at h
  cases hloop : mmLoop mf p 0 l ⟨0, 0, 0, 0, -1⟩ with
  | error e => rw [hloop] at h; cases h
  | ok s =>
    rw [hloop] at h
    simp only [Except.ok.injEq, Prod.mk.injEq] at h
    have hidx : idx = s.maximizing_index := h.2.symm
    rcases mmLoop_index_cases mf p l 0 ⟨0, 0, 0, 0, -1⟩ s hloop with hc | ⟨h1, h2⟩
    · rw [hidx, hc]
      constructor
      · exact le_refl _
      · have : (0 : ℤ) ≤ l.length := Int.natCast_nonneg l.length
        have hneg : ((⟨0, 0, 0, 0, -1⟩ : MMState)).maximizing_index = -1 := rfl
        rw [hneg]
        omega
    · rw [hidx]
      simp only [Nat.cast_zero, zero_add] at h1 h2
      omega

/-- If a successful `metric_max_over_ground_truths` reports index `-1` and
the scorer only returns nonnegative components, the returned maxima are all
zero (nothing was ever included in the comparison). -/
lemma metric_max_no_record {π : Type} (mf : π → List String → Except PyErr Score) (p : π)
    (l : List (List String)) (m : Score)
    (hnn : ∀ g sc, mf p g = .ok sc → 0 ≤ sc.em ∧ 0 ≤ sc.f1 ∧ 0 ≤ sc.p ∧ 0 ≤ sc.r)
    (h : metric_max_over_ground_truths mf p l = .ok (m, -1)) :
    m = ⟨0, 0, 0, 0⟩ := by
  unfold metric_max_over_ground_truths at h
  cases hloop : mmLoop mf p 0 l ⟨0, 0, 0, 0, -1⟩ with
  | error e => rw [hloop] at h; cases h
  | ok s =>
    rw [hloop] at h
    simp only [Except.ok.injEq, Prod.mk.injEq] at h
    have hm : m = stateMax s ∧ s.maximizing_index = -1 := ⟨h.1.symm, h.2⟩
    have := mmLoop_no_record mf p hnn l 0 ⟨0, 0, 0, 0, -1⟩ s hloop hm.2 rfl
    rw [hm.1, this]
    rfl

/-! ### Python dicts as association lists

Python dicts iterate in insertion order and have unique keys.  We embed a
dict as an association list; `alUpd` is `defaultdict` read-modify-write
(`d[k] = f(d[k])` with default `dflt` for a missing key — updates keep the
key's position, new keys are appended), `alSet` is plain assignment. -/

section AssocList

variable {α : Type}

/-- Dict lookup. -/
def alGet? (k : String) : List (String × α) → Option α
  | [] => none
  | (k', v) :: rest => if k' = k then some v else alGet? k rest

/-- `defaultdict` read: the stored value, or the default. -/
def alGetD (k : String) (dflt : α) (l : List (String × α)) : α :=
  (alGet? k l).getD dflt

/-- `defaultdict` read-modify-write `d[k] = f(d[k])`. -/
def alUpd (k : String) (dflt : α) (f : α → α) : List (String × α) → List (String × α)
  | [] => [(k, f dflt)]
  | (k', v) :: rest => if k' = k then (k', f v) :: rest else (k', v) :: alUpd k dflt f rest

/-- Dict assignment `d[k] = v`. -/
def alSet (k : String) (v : α) : List (String × α) → List (String × α)
  | [] => [(k, v)]
  | (k', w) :: rest => if k' = k then (k', v) :: rest else (k', w) :: alSet k v rest

/-- The keys, in insertion order. -/
def alKeys (l : List (String × α)) : List String := l.map Prod.fst

@[simp] lemma alKeys_nil : alKeys ([] : List (String × α)) = [] := rfl

@[simp] lemma alKeys_cons (k : String) (v : α) (l : List (String × α)) :
    alKeys ((k, v) :: l) = k :: alKeys l := rfl

@[simp] lemma alGet?_nil (k : String) : alGet? k ([] : List (String × α)) = none := rfl

lemma alGet?_cons (k k' : String) (v : α) (rest : List (String × α)) :
    alGet? k ((k', v) :: rest) = if k' = k then some v else alGet? k rest := rfl

@[simp] lemma alGet?_alUpd_self (k : String) (dflt : α) (f : α → α) :
    ∀ l : List (String × α), alGet? k (alUpd k dflt f l) = some (f (alGetD k dflt l))
  | [] => by simp [alUpd, alGet?, alGetD]
  | (k', v) :: rest => by
    by_cases h : k' = k
    · simp [alUpd, alGet?, alGetD, h]
    · simp only [alUpd, if_neg h, alGet?, alGetD]
      exact alGet?_alUpd_self k dflt f rest

@[simp] lemma alGet?_alUpd_ne (k k' : String) (dflt : α) (f : α → α) (h : k ≠ k') :
    ∀ l : List (String × α), alGet? k' (alUpd k dflt f l) = alGet? k' l
  | [] => by simp [alUpd, alGet?, h]
  | (k'', v) :: rest => by
    by_cases h2 : k'' = k
    · subst h2
      simp [alUpd, alGet?, h]
    · simp only [alUpd, if_neg h2, alGet?]
      by_cases h3 : k'' = k'
      · simp [h3]
      · rw [if_neg h3, if_neg h3]
        exact alGet?_alUpd_ne k k' dflt f h rest

@[simp] lemma alGet?_alSet_self (k : String) (v : α) :
    ∀ l : List (String × α), alGet? k (alSet k v l) = some v
  | [] => by simp [alSet, alGet?]
  | (k', w) :: rest => by
    by_cases h : k' = k
    · simp [alSet, alGet?, h]
    · simp only [alSet, if_neg h, alGet?]
      exact alGet?_alSet_self k v rest

@[simp] lemma alGet?_alSet_ne (k k' : String) (v : α) (h : k ≠ k') :
    ∀ l : List (String × α), alGet? k' (alSet k v l) = alGet? k' l
  | [] => by simp [alSet, alGet?, h]
  | (k'', w) :: rest => by
    by_cases h2 : k'' = k
    · subst h2
      simp [alSet, alGet?, h]
    · simp only [alSet, if_neg h2, alGet?]
      by_cases h3 : k'' = k'
      · simp [h3]
      · rw [if_neg h3, if_neg h3]
        exact alGet?_alSet_ne k k' v h rest

lemma alKeys_alUpd (k : String) (dflt : α) (f : α → α) :
    ∀ l : List (String × α),
      alKeys (alUpd k dflt f l) = if (alGet? k l).isSome then alKeys l else alKeys l ++ [k]
  | [] => by simp [alUpd, alKeys, alGet?]
  | (k', v) :: rest => by
    by_cases h : k' = k
    · simp [alUpd, alKeys, alGet?, h]
    · rw [show alUpd k dflt f ((k', v) :: rest) = (k', v) :: alUpd k dflt f rest from by
        simp [alUpd, h]]
      rw [show alGet? k ((k', v) :: rest) = alGet? k rest from by simp [alGet?, h]]
      rw [alKeys_cons, alKeys_cons, alKeys_alUpd k dflt f rest]
      by_cases h2 : (alGet? k rest).isSome
      · simp [h2]
      · simp [h2]

lemma alGet?_isSome_iff_mem_keys (k : String) :
    ∀ l : List (String × α), (alGet? k l).isSome ↔ k ∈ alKeys l
  | [] => by simp [alGet?, alKeys]
  | (k', v) :: rest => by
    by_cases h : k' = k
    · simp [alGet?, alKeys, h]
    · simp only [alGet?, if_neg h, alKeys, List.map_cons, List.mem_cons]
      rw [alGet?_isSome_iff_mem_keys k rest]
      constructor
      · intro hm; right; exact hm
      · rintro (hm | hm)
        · exact absurd hm.symm h
        · exact hm

lemma alKeys_alUpd_nodup (k : String) (dflt : α) (f : α → α) (l : List (String × α))
    (h : (alKeys l).Nodup) : (alKeys (alUpd k dflt f l)).Nodup := by
  rw [alKeys_alUpd]
  by_cases hs : (alGet? k l).isSome
  · simpa [hs]
  · simp only [hs, Bool.false_eq_true, if_false]
    rw [List.nodup_append]
    refine ⟨h, List.nodup_singleton k, ?_⟩
    intro a ha hb
    simp only [List.mem_singleton] at hb
    subst hb
    exact hs ((alGet?_isSome_iff_mem_keys a l).mpr ha)

end AssocList

section AssocList2

variable {α : Type}

/-- A two-level dict `answer_type → head → α`. -/
abbrev Dict2 (α : Type) : Type := List (String × List (String × α))

/-- Lookup of a `(type, head)` cell: defined iff both keys are present. -/
def lookup2 (t h : String) (m : Dict2 α) : Option α :=
  (alGet? t m).bind (alGet? h)

/-- `defaultdict`-style read of a cell, with default `dflt`. -/
def get2 (t h : String) (dflt : α) (m : Dict2 α) : α :=
  (lookup2 t h m).getD dflt

/-- `defaultdict(lambda: defaultdict(...))` read-modify-write
`m[t][h] = f(m[t][h])`: a missing outer key inserts an empty inner dict. -/
def upd2 (t h : String) (dflt : α) (f : α → α) (m : Dict2 α) : Dict2 α :=
  alUpd t [] (alUpd h dflt f) m

/-- `defaultdict(lambda: \x7b\x7d)`-style assignment `m[t][h] = v`. -/
def set2 (t h : String) (v : α) (m : Dict2 α) : Dict2 α :=
  alUpd t [] (alSet h v) m

lemma alGetD_of_alGet? (k : String) (dflt : α) (l : List (String × α)) :
    alGetD k dflt l = (alGet? k l).getD dflt := rfl

lemma lookup2_upd2_self (t h : String) (dflt : α) (f : α → α) (m : Dict2 α) :
    lookup2 t h (upd2 t h dflt f m) = some (f (get2 t h dflt m)) := by
  unfold lookup2 upd2
  rw [alGet?_alUpd_self]
  simp only [Option.some_bind]
  rw [alGet?_alUpd_self]
  congr 1
  unfold get2 lookup2 alGetD
  cases hg : alGet? t m with
  | none => simp [hg, alGetD]
  | some inner => simp [hg, alGetD]

lemma lookup2_upd2_ne (t h t' h' : String) (dflt : α) (f : α → α) (m : Dict2 α)
    (hne : t ≠ t' ∨ h ≠ h') :
    lookup2 t' h' (upd2 t h dflt f m) = lookup2 t' h' m := by
  unfold lookup2 upd2
  by_cases ht : t = t'
  · subst ht
    rcases hne with hne | hne
    · exact absurd rfl hne
    · rw [alGet?_alUpd_self]
      simp only [Option.some_bind]
      cases hg : alGet? t m with
      | none => simp [alGetD, hg, alGet?_alUpd_ne h h' dflt f hne]
      | some inner => simp [alGetD, hg, alGet?_alUpd_ne h h' dflt f hne]
  · rw [alGet?_alUpd_ne t t' [] _ ht]

lemma lookup2_set2_self (t h : String) (v : α) (m : Dict2 α) :
    lookup2 t h (set2 t h v m) = some v := by
  unfold lookup2 set2
  rw [alGet?_alUpd_self]
  simp only [Option.some_bind]
  rw [alGet?_alSet_self]

lemma lookup2_set2_ne (t h t' h' : String) (v : α) (m : Dict2 α)
    (hne : t ≠ t' ∨ h ≠ h') :
    lookup2 t' h' (set2 t h v m) = lookup2 t' h' m := by
  unfold lookup2 set2
  by_cases ht : t = t'
  · subst ht
    rcases hne with hne | hne
    · exact absurd rfl hne
    · rw [alGet?_alUpd_self]
      simp only [Option.some_bind]
      cases hg : alGet? t m with
      | none => simp [alGetD, hg, alGet?_alSet_ne h h' v hne]
      | some inner => simp [alGetD, hg, alGet?_alSet_ne h h' v hne]
  · rw [alGet?_alUpd_ne t t' [] _ ht]

/-- Sum of the values of an inner dict. -/
def innerSum (inner : List (String × ℕ)) : ℕ := (inner.map Prod.snd).sum

/-- Sum of all cell values of a two-level count dict. -/
def cellSum (m : Dict2 ℕ) : ℕ := (m.map (fun p => innerSum p.2)).sum

lemma innerSum_alUpd_add (h : String) (x : ℕ) :
    ∀ inner : List (String × ℕ),
      innerSum (alUpd h 0 (· + x) inner) = innerSum inner + x
  | [] => by simp [alUpd, innerSum]
  | (k, v) :: rest => by
    by_cases hk : k = h
    · simp [alUpd, hk, innerSum]
      ring
    · simp only [alUpd, if_neg hk, innerSum, List.map_cons, List.sum_cons]
      have := innerSum_alUpd_add h x rest
      unfold innerSum at this
      rw [this]
      ring

lemma cellSum_upd2_add (t h : String) (x : ℕ) :
    ∀ m : Dict2 ℕ, cellSum (upd2 t h 0 (· + x) m) = cellSum m + x
  | [] => by simp [upd2, alUpd, cellSum, innerSum]
  | (k, inner) :: rest => by
    by_cases hk : k = t
    · simp only [upd2, alUpd, if_pos hk, cellSum, List.map_cons, List.sum_cons]
      rw [innerSum_alUpd_add]
      ring
    · simp only [upd2, alUpd, if_neg hk, cellSum, List.map_cons, List.sum_cons]
      have := cellSum_upd2_add t h x rest
      unfold cellSum upd2 at this
      rw [this]
      ring

end AssocList2

/-! ### The evaluator state and its operations -/

/-- The fields of `EmAndF1Evaluator` (`__init__`, lines 20-30).  Python
floats are embedded as `ℚ`, the nested `defaultdict`s as two-level dicts. -/
structure EmAndF1Evaluator where
  total_em : ℚ
  total_f1 : ℚ
  total_p : ℚ
  total_r : ℚ
  count : ℕ
  answer_type_head_em : Dict2 ℚ
  answer_type_head_f1 : Dict2 ℚ
  answer_type_head_p : Dict2 ℚ
  answer_type_head_r : Dict2 ℚ
  answer_type_head_count : Dict2 ℕ
deriving DecidableEq, Repr

namespace EmAndF1Evaluator

/-- `__init__`: all totals zero, all maps empty. -/
def init : EmAndF1Evaluator :=
  { total_em := 0, total_f1 := 0, total_p := 0, total_r := 0, count := 0,
    answer_type_head_em := [], answer_type_head_f1 := [],
    answer_type_head_p := [], answer_type_head_r := [],
    answer_type_head_count := [] }

/-- `reset` (lines 128-139): restore the freshly-constructed state. -/
def reset (_st : EmAndF1Evaluator) : EmAndF1Evaluator := init

end EmAndF1Evaluator

/-- Python list indexing `l[i]` with negative-index wraparound: `l[-k]` is
`l[len(l) - k]`; out-of-range indices raise `IndexError` (here: `none`). -/
def pyGet {β : Type} (l : List β) (i : ℤ) : Option β :=
  if 0 ≤ i then l.get? i.toNat
  else if 0 ≤ i + l.length then l.get? (i + l.length).toNat
  else none

/-- Run the normalizer over the list-comprehension
`[answer_json_to_strings(annotation) for annotation in ground_truths]`:
results in order, the first exception propagates. -/
def mapExcept {α β : Type} (f : α → Except PyErr β) : List α → Except PyErr (List β)
  | [] => .ok []
  | a :: rest =>
    match f a with
    | .error e => .error e
    | .ok b =>
      match mapExcept f rest with
      | .error e => .error e
      | .ok bs => .ok (b :: bs)

/-- `EmAndF1Evaluator.call` (lines 45-68).  `normalize` is the external
`answer_json_to_strings`, `metric_fn` the external scorer; both may raise.
Returns the state the Python object holds when `call` returns or when the
exception propagates, together with the returned value or the exception.
Unpacking `list(zip(*[]))` into two variables raises `ValueError`; list
indexing out of range raises `IndexError` (unreachable here, proved
below). -/
def call {π α : Type} (normalize : α → Except PyErr (List String × String))
    (metric_fn : π → List String → Except PyErr Score)
    (st : EmAndF1Evaluator) (prediction : π) (ground_truths : List α)
    (predicted_ability : String) : EmAndF1Evaluator × Except PyErr (Score × α) :=
  match mapExcept normalize ground_truths with
  | .error e => (st, .error e)
  | .ok pairs =>
    if pairs.isEmpty then (st, .error .valueError)
    else
      let ground_truth_answer_strings := pairs.map Prod.fst
      let ground_truth_answer_types := pairs.map Prod.snd
      match metric_max_over_ground_truths metric_fn prediction ground_truth_answer_strings with
      | .error e => (st, .error e)
      | .ok (sc, maximizing_ground_truth_index) =>
        let st1 : EmAndF1Evaluator :=
          { st with
            total_em := st.total_em + sc.em,
            total_f1 := st.total_f1 + sc.f1,
            total_p := st.total_p + sc.p,
            total_r := st.total_r + sc.r,
            count := st.count + 1 }
        match pyGet ground_truth_answer_types maximizing_ground_truth_index with
        | none => (st1, .error .indexError)
        | some answer_type =>
          let st2 : EmAndF1Evaluator :=
            { st1 with
              answer_type_head_em :=
                upd2 answer_type predicted_ability 0 (· + sc.em) st1.answer_type_head_em,
              answer_type_head_f1 :=
                upd2 answer_type predicted_ability 0 (· + sc.f1) st1.answer_type_head_f1,
              answer_type_head_p :=
                upd2 answer_type predicted_ability 0 (· + sc.p) st1.answer_type_head_p,
              answer_type_head_r :=
                upd2 answer_type predicted_ability 0 (· + sc.r) st1.answer_type_head_r,
              answer_type_head_count :=
                upd2 answer_type predicted_ability 0 (· + 1) st1.answer_type_head_count }
          match pyGet ground_truths maximizing_ground_truth_index with
          | none => (st2, .error .indexError)
          | some gt => (st2, .ok (sc, gt))

/-- `__call__` (lines 32-43): the `Metric` interface override forwards only
`(prediction, ground_truths)` to `call`, whose three positional parameters
`(prediction, ground_truths, predicted_ability)` make Python raise
`TypeError` (missing required positional argument) at the call site, before
the body of `call` runs — so the state is untouched. -/
def dunder_call {π α : Type} (st : EmAndF1Evaluator) (_prediction : π)
    (_ground_truths : List α) : EmAndF1Evaluator × Except PyErr (Score × α) :=
  (st, .error .typeError)

/-- The state change a successful `call` applies: add the selected maxima to
the top-level sums, bump the top-level count, and add them to the
`(answer_type, predicted_ability)` cell of each of the five maps. -/
def applyContrib (st : EmAndF1Evaluator) (sc : Score)
    (answer_type predicted_ability : String) : EmAndF1Evaluator :=
  { total_em := st.total_em + sc.em,
    total_f1 := st.total_f1 + sc.f1,
    total_p := st.total_p + sc.p,
    total_r := st.total_r + sc.r,
    count := st.count + 1,
    answer_type_head_em :=
      upd2 answer_type predicted_ability 0 (· + sc.em) st.answer_type_head_em,
    answer_type_head_f1 :=
      upd2 answer_type predicted_ability 0 (· + sc.f1) st.answer_type_head_f1,
    answer_type_head_p :=
      upd2 answer_type predicted_ability 0 (· + sc.p) st.answer_type_head_p,
    answer_type_head_r :=
      upd2 answer_type predicted_ability 0 (· + sc.r) st.answer_type_head_r,
    answer_type_head_count :=
      upd2 answer_type predicted_ability 0 (· + 1) st.answer_type_head_count }

/-- The state-independent part of a `call`: the selected maxima, the answer
type of the maximizing ground truth, and the returned ground truth; `none`
when the call would raise. -/
def contrib {π α : Type} (normalize : α → Except PyErr (List String × String))
    (metric_fn : π → List String → Except PyErr Score) (prediction : π)
    (ground_truths : List α) : Option (Score × String × α) :=
  match mapExcept normalize ground_truths with
  | .error _ => none
  | .ok pairs =>
    if pairs.isEmpty then none
    else
      match metric_max_over_ground_truths metric_fn prediction (pairs.map Prod.fst) with
      | .error _ => none
      | .ok (sc, idx) =>
        match pyGet (pairs.map Prod.snd) idx, pyGet ground_truths idx with
        | some t, some g => some (sc, t, g)
        | some _, none => none
        | none, _ => none

lemma mapExcept_length {α β : Type} (f : α → Except PyErr β) :
    ∀ (l : List α) (bs : List β), mapExcept f l = .ok bs → bs.length = l.length
  | [], bs, h => by
    simp only [mapExcept, Except.ok.injEq] at h
    rw [← h]
    rfl
  | a :: rest, bs, h => by
    simp only [mapExcept] at h
    cases hfa : f a with
    | error e => rw [hfa] at h; cases h
    | ok b =>
      rw [hfa] at h
      cases hrest : mapExcept f rest with
      | error e => rw [hrest] at h; cases h
      | ok bs' =>
        rw [hrest] at h
        simp only [Except.ok.injEq] at h
        rw [← h]
        simp only [List.length_cons]
        rw [mapExcept_length f rest bs' hrest]

lemma pyGet_eq_some_of_bounds {β : Type} (l : List β) (i : ℤ)
    (h1 : -1 ≤ i) (h2 : i < l.length) (h3 : l ≠ []) : ∃ b, pyGet l i = some b := by
  unfold pyGet
  have hlen : 0 < l.length := List.length_pos.mpr h3
  by_cases h0 : 0 ≤ i
  · rw [if_pos h0]
    have hlt : i.toNat < l.length := by omega
    exact ⟨l.get ⟨i.toNat, hlt⟩, List.get?_eq_get hlt⟩
  · have hi : i = -1 := by omega
    subst hi
    rw [if_neg h0, if_pos (by omega)]
    have hlt : (-1 + (l.length : ℤ)).toNat < l.length := by omega
    exact ⟨l.get ⟨_, hlt⟩, List.get?_eq_get hlt⟩

lemma pyGet_neg_one {β : Type} (l : List β) (h : l ≠ []) : pyGet l (-1) = l.getLast? := by
  unfold pyGet
  have hlen : 0 < l.length := List.length_pos.mpr h
  rw [if_neg (by omega), if_pos (by omega)]
  have htn : (-1 + (l.length : ℤ)).toNat = l.length - 1 := by omega
  rw [htn, List.getLast?_eq_getElem?, List.get?_eq_getElem?]

/-- Successful `call`s are exactly the applications of `applyContrib` for the
call's `contrib`; the returned score and ground truth come from `contrib`. -/
lemma call_ok_char {π α : Type} (normalize : α → Except PyErr (List String × String))
    (metric_fn : π → List String → Except PyErr Score)
    (st st' : EmAndF1Evaluator) (p : π) (gts : List α) (a : String) (sc : Score) (g : α) :
    call normalize metric_fn st p gts a = (st', .ok (sc, g)) ↔
      ∃ t, contrib normalize metric_fn p gts = some (sc, t, g) ∧
        st' = applyContrib st sc t a := by
  unfold call contrib
  cases hmap : mapExcept normalize gts with
  | error e => simp
  | ok pairs =>
    by_cases hne : pairs.isEmpty
    · simp [hne]
    · simp only [hne, Bool.false_eq_true, if_false]
      cases hmm : metric_max_over_ground_truths metric_fn p (pairs.map Prod.fst) with
      | error e => simp
      | ok r =>
        obtain ⟨msc, idx⟩ := r
        cases hty : pyGet (pairs.map Prod.snd) idx with
        | none => simp [hty]
        | some t0 =>
          cases hgt : pyGet gts idx with
          | none => simp [hty, hgt]
          | some g0 =>
            simp only [hty, hgt, Prod.mk.injEq, Except.ok.injEq, Option.some.injEq]
            constructor
            · rintro ⟨hst, hsc, hg⟩
              subst hsc; subst hg; subst hst
              exact ⟨t0, ⟨rfl, rfl, rfl⟩, rfl⟩
            · rintro ⟨t, ⟨hsc, ht, hg⟩, hst⟩
              subst hsc; subst ht; subst hg; subst hst
              exact ⟨rfl, rfl, rfl⟩

/-- The totals-only part of the first mutation block of `call` (lines
54-58), used to phrase the unreachable `IndexError` path. -/
def bumpTotals (st : EmAndF1Evaluator) (sc : Score) : EmAndF1Evaluator :=
  { st with
    total_em := st.total_em + sc.em,
    total_f1 := st.total_f1 + sc.f1,
    total_p := st.total_p + sc.p,
    total_r := st.total_r + sc.r,
    count := st.count + 1 }

/-- `call` laid out as a chain of matches, for case analysis. -/
lemma call_eq {π α : Type} (normalize : α → Except PyErr (List String × String))
    (metric_fn : π → List String → Except PyErr Score)
    (st : EmAndF1Evaluator) (p : π) (gts : List α) (a : String) :
    call normalize metric_fn st p gts a =
      match mapExcept normalize gts with
      | .error e => (st, .error e)
      | .ok pairs =>
        if pairs.isEmpty then (st, .error .valueError)
        else
          match metric_max_over_ground_truths metric_fn p (pairs.map Prod.fst) with
          | .error e => (st, .error e)
          | .ok (sc, idx) =>
            match pyGet (pairs.map Prod.snd) idx with
            | none => (bumpTotals st sc, .error .indexError)
            | some t =>
              match pyGet gts idx with
              | none => (applyContrib st sc t a, .error .indexError)
              | some g => (applyContrib st sc t a, .ok (sc, g)) := rfl

/-- A `call` that raises leaves the accumulator untouched: the `IndexError`
paths after the first mutation are unreachable because a successful
maximization returns an index in `[-1, len)` over a non-empty list. -/
lemma call_error_state {π α : Type} (normalize : α → Except PyErr (List String × String))
    (metric_fn : π → List String → Except PyErr Score)
    (st st' : EmAndF1Evaluator) (p : π) (gts : List α) (a : String) (e : PyErr)
    (h : call normalize metric_fn st p gts a = (st', .error e)) : st' = st := by
  rw [call_eq] at h
  cases hmap : mapExcept normalize gts with
  | error e' =>
    simp only [hmap, Prod.mk.injEq] at h
    exact h.1.symm
  | ok pairs =>
    simp only [hmap] at h
    by_cases hne : pairs.isEmpty
    · rw [if_pos hne] at h
      simp only [Prod.mk.injEq] at h
      exact h.1.symm
    · rw [if_neg hne] at h
      have hpne : pairs ≠ [] := by
        intro hp
        subst hp
        exact hne rfl
      cases hmm : metric_max_over_ground_truths metric_fn p (pairs.map Prod.fst) with
      | error e' =>
        simp only [hmm, Prod.mk.injEq] at h
        exact h.1.symm
      | ok r =>
        obtain ⟨msc, idx⟩ := r
        simp only [hmm] at h
        obtain ⟨hb1, hb2⟩ := metric_max_index_bounds metric_fn p (pairs.map Prod.fst) msc idx hmm
        have hty : ∃ t0, pyGet (pairs.map Prod.snd) idx = some t0 := by
          apply pyGet_eq_some_of_bounds _ _ hb1
          · simpa using hb2
          · simpa using hpne
        obtain ⟨t0, hty⟩ := hty
        simp only [hty] at h
        have hlen : gts.length = pairs.length := (mapExcept_length normalize gts pairs hmap).symm
        have hgt : ∃ g0, pyGet gts idx = some g0 := by
          apply pyGet_eq_some_of_bounds _ _ hb1
          · rw [hlen]
            simpa using hb2
          · intro hg
            subst hg
            have hpl : pairs.length = 0 := by simpa using hlen.symm
            exact hpne (List.length_eq_zero.mp hpl)
        obtain ⟨g0, hgt⟩ := hgt
        simp only [hgt] at h
        simp at h

/-- C10: calling the evaluator through the overridden two-argument `Metric`
interface `__call__` raises `TypeError` (the forwarded `call` is missing the
required `predicted_ability` argument), before any state change, for every
input; accumulation is only possible through the three-argument `call`. -/
theorem dunder_call_raises_type_error {π α : Type} (st : EmAndF1Evaluator) (p : π)
    (gts : List α) : dunder_call st p gts = (st, .error .typeError) := rfl

/-- C8: `call` is effectively atomic.  An empty `ground_truths` raises
(`ValueError` from unpacking the empty zip); a normalizer exception and a
scorer exception are propagated unchanged; and in every raising case — for
all inputs — the returned state is exactly the incoming state: no
accumulator field is modified. -/
theorem call_fails_atomically {π α : Type}
    (normalize : α → Except PyErr (List String × String))
    (metric_fn : π → List String → Except PyErr Score) :
    (∀ (st : EmAndF1Evaluator) (p : π) (a : String),
      call normalize metric_fn st p ([] : List α) a = (st, .error .valueError))
    ∧ (∀ (st : EmAndF1Evaluator) (p : π) (gts : List α) (a : String) (e : PyErr),
        mapExcept normalize gts = .error e →
        call normalize metric_fn st p gts a = (st, .error e))
    ∧ (∀ (st : EmAndF1Evaluator) (p : π) (gts : List α) (a : String)
        (pairs : List (List String × String)) (e : PyErr),
        mapExcept normalize gts = .ok pairs → pairs ≠ [] →
        metric_max_over_ground_truths metric_fn p (pairs.map Prod.fst) = .error e →
        call normalize metric_fn st p gts a = (st, .error e))
    ∧ (∀ (st st' : EmAndF1Evaluator) (p : π) (gts : List α) (a : String) (e : PyErr),
        call normalize metric_fn st p gts a = (st', .error e) → st' = st) := by
  refine ⟨?_, ?_, ?_, ?_⟩
  · intro st p a
    rfl
  · intro st p gts a e he
    rw [call_eq, he]
  · intro st p gts a pairs e hok hpne hmm
    rw [call_eq]
    simp only [hok]
    rw [if_neg (by simpa using hpne), hmm]
  · intro st st' p gts a e h
    exact call_error_state normalize metric_fn st st' p gts a e h

/-- Normalizer for witnesses: every annotation yields the answer strings
`[" "]` (whitespace-only) with answer type `"span"`. -/
def normWS : String → Except PyErr (List String × String) := fun _ => .ok ([" "], "span")

/-- Normalizer for witnesses that raises. -/
def normErr : String → Except PyErr (List String × String) := fun _ => .error (.raised 3)

/-- Scorer for witnesses: always `(0, 0, 0, 0)`. -/
def mfZero : String → List String → Except PyErr Score := fun _ _ => .ok ⟨0, 0, 0, 0⟩

/-- Scorer for witnesses that raises. -/
def mfErr : String → List String → Except PyErr Score := fun _ _ => .error (.raised 5)

/-- Witness for C8 at concrete inputs. -/
theorem call_fails_atomically_witness :
    call normWS mfZero .init "x" ([] : List String) "h" = (.init, .error .valueError)
    ∧ call normErr mfZero .init "x" ["g"] "h" = (.init, .error (.raised 3))
    ∧ call normWS mfErr .init "x" ["g"] "h" = (.init, .error (.raised 5)) := by
  refine ⟨(call_fails_atomically normWS mfZero).1 .init "x" "h", ?_, ?_⟩
  · exact (call_fails_atomically normErr mfZero).2.1 .init "x" ["g"] "h" (.raised 3) rfl
  · exact (call_fails_atomically normWS mfErr).2.2.1 .init "x" ["g"] "h"
      [([" "], "span")] (.raised 5) rfl (by simp) rfl

/-- C2: if no ground truth ever satisfies the recording condition, the
maximizing index stays `-1`; then (with the scorer's components nonnegative,
as the score contract guarantees) the returned maxima are `(0,0,0,0)`, and
`call` returns `ground_truths[-1]` — the *last* element, by Python negative
indexing — as the selected ground truth, attributing the per-cell increments
to the last element's answer type. -/
theorem call_no_recording_wraps_to_last {π α : Type}
    (normalize : α → Except PyErr (List String × String))
    (metric_fn : π → List String → Except PyErr Score)
    (st : EmAndF1Evaluator) (p : π) (gts : List α) (a : String)
    (pairs : List (List String × String)) (m : Score)
    (hnn : ∀ g sc, metric_fn p g = .ok sc → 0 ≤ sc.em ∧ 0 ≤ sc.f1 ∧ 0 ≤ sc.p ∧ 0 ≤ sc.r)
    (hpairs : mapExcept normalize gts = .ok pairs) (hpne : pairs ≠ [])
    (hmm : metric_max_over_ground_truths metric_fn p (pairs.map Prod.fst) = .ok (m, -1)) :
    m = ⟨0, 0, 0, 0⟩
    ∧ ∃ g, gts.getLast? = some g ∧
        call normalize metric_fn st p gts a =
          (applyContrib st ⟨0, 0, 0, 0⟩ ((pairs.map Prod.snd).getLastD "") a,
            .ok (⟨0, 0, 0, 0⟩, g)) := by
  have hm0 : m = ⟨0, 0, 0, 0⟩ := metric_max_no_record metric_fn p _ m hnn hmm
  subst hm0
  have h1 : (pairs.map Prod.snd) ≠ [] := by simpa using hpne
  have hgne : gts ≠ [] := by
    intro hg
    subst hg
    have := mapExcept_length normalize [] pairs hpairs
    simp at this
    exact hpne this
  have h2 : pyGet (pairs.map Prod.snd) (-1) = some ((pairs.map Prod.snd).getLastD "") := by
    rw [pyGet_neg_one _ h1, List.getLast?_eq_getLast_of_ne_nil h1]
    congr 1
    rw [List.getLastD_eq_getLast?, List.getLast?_eq_getLast_of_ne_nil h1]
    rfl
  have hg2 : pyGet gts (-1) = some (gts.getLast hgne) := by
    rw [pyGet_neg_one _ hgne, List.getLast?_eq_getLast_of_ne_nil hgne]
  refine ⟨rfl, gts.getLast hgne, List.getLast?_eq_getLast_of_ne_nil hgne, ?_⟩
  rw [call_eq]
  simp only [hpairs]
  rw [if_neg (by simpa using hpne)]
  simp only [hmm, h2, hg2]

/-- Witness for C2 at concrete inputs: the single ground truth normalizes to
a whitespace-only answer string, so nothing is recorded; the call selects
the last (only) annotation and books the increments under its type. -/
theorem call_no_recording_wraps_to_last_witness :
    ∃ g, (["g"] : List String).getLast? = some g ∧
      call normWS mfZero .init "x" ["g"] "h" =
        (applyContrib .init ⟨0, 0, 0, 0⟩ "span" "h", .ok (⟨0, 0, 0, 0⟩, g)) := by
  have h := call_no_recording_wraps_to_last normWS mfZero .init "x" ["g"] "h"
    [([" "], "span")] ⟨0, 0, 0, 0⟩
    (by
      intro g sc hsc
      simp only [mfZero, Except.ok.injEq] at hsc
      subst hsc
      exact ⟨le_refl 0, le_refl 0, le_refl 0, le_refl 0⟩)
    rfl (by simp) rfl
  exact h.2

/-! ### Sequences of calls and their extensional effect -/

/-- One `call` input: `(prediction, ground_truths, predicted_ability)`. -/
abbrev CallIn (π α : Type) : Type := π × List α × String

/-- Run a sequence of `call`s; `none` as soon as one raises. -/
def runCalls {π α : Type} (normalize : α → Except PyErr (List String × String))
    (metric_fn : π → List String → Except PyErr Score) :
    EmAndF1Evaluator → List (CallIn π α) → Option EmAndF1Evaluator
  | st, [] => some st
  | st, c :: rest =>
    match call normalize metric_fn st c.1 c.2.1 c.2.2 with
    | (st', .ok _) => runCalls normalize metric_fn st' rest
    | (_, .error _) => none

/-- What one successful call adds: `(maxima, answer_type, predicted_ability)`. -/
abbrev Delta : Type := Score × String × String

/-- Apply one delta to the accumulator. -/
def applyDelta (st : EmAndF1Evaluator) (d : Delta) : EmAndF1Evaluator :=
  applyContrib st d.1 d.2.1 d.2.2

/-- The deltas of a sequence of call inputs; `none` if any call would raise. -/
def deltas {π α : Type} (normalize : α → Except PyErr (List String × String))
    (metric_fn : π → List String → Except PyErr Score) :
    List (CallIn π α) → Option (List Delta)
  | [] => some []
  | c :: rest =>
    match contrib normalize metric_fn c.1 c.2.1 with
    | none => none
    | some (sc, t, _) =>
      match deltas normalize metric_fn rest with
      | none => none
      | some ds => some ((sc, t, c.2.2) :: ds)

lemma call_of_contrib_some {π α : Type}
    (normalize : α → Except PyErr (List String × String))
    (metric_fn : π → List String → Except PyErr Score)
    (st : EmAndF1Evaluator) (p : π) (gts : List α) (a : String)
    (sc : Score) (t : String) (g : α)
    (hc : contrib normalize metric_fn p gts = some (sc, t, g)) :
    call normalize metric_fn st p gts a = (applyContrib st sc t a, .ok (sc, g)) :=
  (call_ok_char normalize metric_fn st (applyContrib st sc t a) p gts a sc g).mpr
    ⟨t, hc, rfl⟩

lemma call_error_of_contrib_none {π α : Type}
    (normalize : α → Except PyErr (List String × String))
    (metric_fn : π → List String → Except PyErr Score)
    (st : EmAndF1Evaluator) (p : π) (gts : List α) (a : String)
    (hc : contrib normalize metric_fn p gts = none) :
    ∃ e, (call normalize metric_fn st p gts a).2 = .error e := by
  rcases hcc : call normalize metric_fn st p gts a with ⟨st0, r⟩
  cases r with
  | error e => exact ⟨e, rfl⟩
  | ok out =>
    exfalso
    obtain ⟨sc, g⟩ := out
    obtain ⟨t, hct, _⟩ :=
      (call_ok_char normalize metric_fn st st0 p gts a sc g).mp hcc
    rw [hc] at hct
    cases hct

/-- `runCalls` succeeds exactly when every call input has a delta, and then
the final state is the left fold of `applyDelta` over those deltas. -/
lemma runCalls_char {π α : Type} (normalize : α → Except PyErr (List String × String))
    (metric_fn : π → List String → Except PyErr Score) :
    ∀ (cs : List (CallIn π α)) (st st' : EmAndF1Evaluator),
      runCalls normalize metric_fn st cs = some st' ↔
        ∃ ds, deltas normalize metric_fn cs = some ds ∧ st' = ds.foldl applyDelta st
  | [], st, st' => by
    simp only [runCalls, deltas, Option.some.injEq]
    constructor
    · intro h
      exact ⟨[], rfl, h.symm⟩
    · rintro ⟨ds, hds, hst⟩
      subst hst
      rw [← hds]
      rfl
  | c :: rest, st, st' => by
    cases hc : contrib normalize metric_fn c.1 c.2.1 with
    | none =>
      obtain ⟨e, he⟩ := call_error_of_contrib_none normalize metric_fn st c.1 c.2.1 c.2.2 hc
      constructor
      · intro h
        exfalso
        simp only [runCalls] at h
        rcases hcc : call normalize metric_fn st c.1 c.2.1 c.2.2 with ⟨st0, r⟩
        rw [hcc] at h
        cases r with
        | error e' => cases h
        | ok out =>
          rw [hcc] at he
          cases he
      · rintro ⟨ds, hds, _⟩
        simp only [deltas, hc] at hds
        cases hds
    | some v =>
      obtain ⟨sc, t, g⟩ := v
      have hcall := call_of_contrib_some normalize metric_fn st c.1 c.2.1 c.2.2 sc t g hc
      constructor
      · intro h
        simp only [runCalls, hcall] at h
        obtain ⟨ds, hds, hst⟩ :=
          (runCalls_char normalize metric_fn rest (applyContrib st sc t c.2.2) st').mp h
        refine ⟨(sc, t, c.2.2) :: ds, ?_, ?_⟩
        · simp only [deltas, hc, hds]
        · simp only [List.foldl_cons]
          exact hst
      · rintro ⟨ds, hds, hst⟩
        simp only [deltas, hc] at hds
        cases hds2 : deltas normalize metric_fn rest with
        | none => rw [hds2] at hds; cases hds
        | some ds' =>
          rw [hds2] at hds
          simp only [Option.some.injEq] at hds
          subst hds
          simp only [runCalls, hcall]
          refine (runCalls_char normalize metric_fn rest (applyContrib st sc t c.2.2) st').mpr ?_
          exact ⟨ds', hds2, by simpa using hst⟩

/-- Does a delta land in the `(answer_type, head)` cell `(t, h)`? -/
def keyMatches (t h : String) (d : Delta) : Bool :=
  decide (d.2.1 = t) && decide (d.2.2 = h)

lemma keyMatches_iff (t h : String) (d : Delta) :
    keyMatches t h d = true ↔ d.2.1 = t ∧ d.2.2 = h := by
  simp [keyMatches]

/-- Sum of one score component over the deltas landing in cell `(t, h)`. -/
def deltaCompSum (f : Score → ℚ) (t h : String) (ds : List Delta) : ℚ :=
  ((ds.filter (keyMatches t h)).map (fun d => f d.1)).sum

/-- Number of deltas landing in cell `(t, h)`. -/
def deltaCount (t h : String) (ds : List Delta) : ℕ :=
  (ds.filter (keyMatches t h)).length

lemma foldl_applyDelta_scalars :
    ∀ (ds : List Delta) (st : EmAndF1Evaluator),
      (ds.foldl applyDelta st).count = st.count + ds.length
      ∧ (ds.foldl applyDelta st).total_em = st.total_em + (ds.map (fun d => d.1.em)).sum
      ∧ (ds.foldl applyDelta st).total_f1 = st.total_f1 + (ds.map (fun d => d.1.f1)).sum
      ∧ (ds.foldl applyDelta st).total_p = st.total_p + (ds.map (fun d => d.1.p)).sum
      ∧ (ds.foldl applyDelta st).total_r = st.total_r + (ds.map (fun d => d.1.r)).sum
      ∧ cellSum (ds.foldl applyDelta st).answer_type_head_count
          = cellSum st.answer_type_head_count + ds.length
  | [], st => by simp
  | d :: ds, st => by
    have ih := foldl_applyDelta_scalars ds (applyDelta st d)
    simp only [List.foldl_cons, List.length_cons, List.map_cons, List.sum_cons]
    obtain ⟨h1, h2, h3, h4, h5, h6⟩ := ih
    refine ⟨?_, ?_, ?_, ?_, ?_, ?_⟩
    · rw [h1]; simp [applyDelta, applyContrib]; ring
    · rw [h2]; simp [applyDelta, applyContrib]; ring
    · rw [h3]; simp [applyDelta, applyContrib]; ring
    · rw [h4]; simp [applyDelta, applyContrib]; ring
    · rw [h5]; simp [applyDelta, applyContrib]; ring
    · rw [h6]
      have : cellSum (applyDelta st d).answer_type_head_count
          = cellSum st.answer_type_head_count + 1 := by
        simp only [applyDelta, applyContrib]
        exact cellSum_upd2_add d.2.1 d.2.2 1 st.answer_type_head_count
      rw [this]
      ring

lemma get2_upd2_self {γ : Type} (t h : String) (dflt : γ) (f : γ → γ) (m : Dict2 γ) :
    get2 t h dflt (upd2 t h dflt f m) = f (get2 t h dflt m) := by
  unfold get2
  rw [lookup2_upd2_self]
  rfl

lemma get2_upd2_ne {γ : Type} (t h t' h' : String) (dflt : γ) (f : γ → γ) (m : Dict2 γ)
    (hne : t ≠ t' ∨ h ≠ h') :
    get2 t' h' dflt (upd2 t h dflt f m) = get2 t' h' dflt m := by
  unfold get2
  rw [lookup2_upd2_ne t h t' h' dflt f m hne]

lemma not_keyMatches {t h : String} {d : Delta} (hk : ¬keyMatches t h d = true) :
    d.2.1 ≠ t ∨ d.2.2 ≠ h := by
  rw [keyMatches_iff] at hk
  by_cases h1 : d.2.1 = t
  · right
    intro h2
    exact hk ⟨h1, h2⟩
  · left
    exact h1

/-- Generic fold characterization for the four value maps: `F` selects a
map field and `applyDelta` updates it at the delta's cell by adding `f` of
the delta's score. -/
lemma foldl_applyDelta_map (F : EmAndF1Evaluator → Dict2 ℚ) (f : Score → ℚ)
    (hF : ∀ st d, F (applyDelta st d) = upd2 d.2.1 d.2.2 0 (· + f d.1) (F st)) :
    ∀ (ds : List Delta) (st : EmAndF1Evaluator) (t h : String),
      lookup2 t h (F (ds.foldl applyDelta st)) =
        if ds.filter (keyMatches t h) = [] then lookup2 t h (F st)
        else some (get2 t h 0 (F st) + deltaCompSum f t h ds)
  | [], st, t, h => by simp [deltaCompSum]
  | d :: ds, st, t, h => by
    have ih := foldl_applyDelta_map F f hF ds (applyDelta st d) t h
    simp only [List.foldl_cons] at ih ⊢
    by_cases hk : keyMatches t h d = true
    · obtain ⟨ht, hh⟩ := (keyMatches_iff t h d).mp hk
      have hlk : lookup2 t h (F (applyDelta st d)) = some (get2 t h 0 (F st) + f d.1) := by
        rw [hF st d, ht, hh, lookup2_upd2_self]
      have hg : get2 t h 0 (F (applyDelta st d)) = get2 t h 0 (F st) + f d.1 := by
        rw [hF st d, ht, hh, get2_upd2_self]
      have hfil : (d :: ds).filter (keyMatches t h) = d :: ds.filter (keyMatches t h) := by
        simp [List.filter_cons, hk]
      rw [ih, hfil]
      by_cases hds : ds.filter (keyMatches t h) = []
      · rw [if_pos hds, hlk]
        simp only [List.cons_ne_nil, if_false, deltaCompSum, hfil, hds]
        simp
      · rw [if_neg hds, hg]
        simp only [List.cons_ne_nil, if_false, deltaCompSum, hfil]
        simp only [List.map_cons, List.sum_cons]
        congr 1
        ring
    · have hne := not_keyMatches hk
      have hne' : d.2.1 ≠ t ∨ d.2.2 ≠ h := hne
      have hlk : lookup2 t h (F (applyDelta st d)) = lookup2 t h (F st) := by
        rw [hF st d]
        exact lookup2_upd2_ne d.2.1 d.2.2 t h 0 _ (F st) hne'
      have hg : get2 t h 0 (F (applyDelta st d)) = get2 t h 0 (F st) := by
        unfold get2
        rw [hlk]
      have hfil : (d :: ds).filter (keyMatches t h) = ds.filter (keyMatches t h) := by
        simp [List.filter_cons, hk]
      rw [ih, hlk, hg]
      rw [show deltaCompSum f t h (d :: ds) = deltaCompSum f t h ds from by
        simp [deltaCompSum, hfil]]
      rw [hfil]

/-- Fold characterization for the count map. -/
lemma foldl_applyDelta_countmap :
    ∀ (ds : List Delta) (st : EmAndF1Evaluator) (t h : String),
      lookup2 t h ((ds.foldl applyDelta st).answer_type_head_count) =
        if ds.filter (keyMatches t h) = [] then lookup2 t h st.answer_type_head_count
        else some (get2 t h 0 st.answer_type_head_count + deltaCount t h ds)
  | [], st, t, h => by simp [deltaCount]
  | d :: ds, st, t, h => by
    have ih := foldl_applyDelta_countmap ds (applyDelta st d) t h
    simp only [List.foldl_cons] at ih ⊢
    have hF : (applyDelta st d).answer_type_head_count
        = upd2 d.2.1 d.2.2 0 (· + 1) st.answer_type_head_count := rfl
    by_cases hk : keyMatches t h d = true
    · obtain ⟨ht, hh⟩ := (keyMatches_iff t h d).mp hk
      have hlk : lookup2 t h (applyDelta st d).answer_type_head_count
          = some (get2 t h 0 st.answer_type_head_count + 1) := by
        rw [hF, ht, hh, lookup2_upd2_self]
      have hg : get2 t h 0 (applyDelta st d).answer_type_head_count
          = get2 t h 0 st.answer_type_head_count + 1 := by
        rw [hF, ht, hh, get2_upd2_self]
      have hfil : (d :: ds).filter (keyMatches t h) = d :: ds.filter (keyMatches t h) := by
        simp [List.filter_cons, hk]
      rw [ih]
      by_cases hds : ds.filter (keyMatches t h) = []
      · rw [if_pos hds, hlk]
        simp only [hfil, List.cons_ne_nil, if_false, deltaCount, hds]
        simp
      · rw [if_neg hds, hg]
        simp only [hfil, List.cons_ne_nil, if_false, deltaCount]
        simp only [List.length_cons]
        congr 1
        ring
    · have hne' : d.2.1 ≠ t ∨ d.2.2 ≠ h := not_keyMatches hk
      have hlk : lookup2 t h (applyDelta st d).answer_type_head_count
          = lookup2 t h st.answer_type_head_count := by
        rw [hF]
        exact lookup2_upd2_ne d.2.1 d.2.2 t h 0 _ st.answer_type_head_count hne'
      have hg : get2 t h 0 (applyDelta st d).answer_type_head_count
          = get2 t h 0 st.answer_type_head_count := by
        unfold get2
        rw [hlk]
      have hfil : (d :: ds).filter (keyMatches t h) = ds.filter (keyMatches t h) := by
        simp [List.filter_cons, hk]
      rw [ih, hlk, hg]
      rw [show deltaCount t h (d :: ds) = deltaCount t h ds from by
        simp [deltaCount, hfil]]
      rw [hfil]

/-! ### `get_metric` -/

/-- One view entry `(mean_em, mean_f1, mean_p, mean_r, support_count)`. -/
structure ViewEntry where
  em : ℚ
  f1 : ℚ
  p : ℚ
  r : ℚ
  support : ℕ
deriving DecidableEq, Repr

/-- The value `get_metric` returns (line 126): the overall quadruple —
without a support count — and the three breakdown dicts. -/
structure Views where
  overall : ℚ × ℚ × ℚ × ℚ
  scores_per_answer_type_and_head : Dict2 ViewEntry
  scores_per_answer_type : List (String × ViewEntry)
  scores_per_head : List (String × ViewEntry)
deriving DecidableEq, Repr

/-- Python `/` on a float and an int: raises `ZeroDivisionError` on zero. -/
def pyDiv (a : ℚ) (n : ℕ) : Option ℚ :=
  if n = 0 then none else some (a / n)

/-- The dicts `get_metric` accumulates across the nested loop
(lines 83-91). -/
structure GMAcc where
  scores_per_answer_type_and_head : Dict2 ViewEntry
  scores_per_answer_type : List (String × ViewEntry)
  em_per_head : List (String × ℚ)
  f1_per_head : List (String × ℚ)
  p_per_head : List (String × ℚ)
  r_per_head : List (String × ℚ)
  count_per_head : List (String × ℕ)
deriving Repr

/-- All empty, as initialized on lines 83-91. -/
def gmAccInit : GMAcc := ⟨[], [], [], [], [], [], []⟩

/-- The per-type running sums of the inner loop (lines 94-98). -/
structure TypeAcc where
  type_count : ℕ
  type_em : ℚ
  type_f1 : ℚ
  type_p : ℚ
  type_r : ℚ
deriving Repr

/-- The inner loop over `head_count.items()` (lines 100-117): accumulate the
type sums, the per-head sums and counts, then divide for the per-cell view
(division by a zero cell count raises). -/
def gmInner (st : EmAndF1Evaluator) (answer_type : String) :
    List (String × ℕ) → TypeAcc → GMAcc → Option (TypeAcc × GMAcc)
  | [], ta, acc => some (ta, acc)
  | (head, count) :: rest, ta, acc =>
    let em := get2 answer_type head 0 st.answer_type_head_em
    let f1v := get2 answer_type head 0 st.answer_type_head_f1
    let pv := get2 answer_type head 0 st.answer_type_head_p
    let rv := get2 answer_type head 0 st.answer_type_head_r
    let ta' : TypeAcc := ⟨ta.type_count + count, ta.type_em + em, ta.type_f1 + f1v,
      ta.type_p + pv, ta.type_r + rv⟩
    let acc' : GMAcc := { acc with
      em_per_head := alUpd head 0 (· + em) acc.em_per_head,
      f1_per_head := alUpd head 0 (· + f1v) acc.f1_per_head,
      p_per_head := alUpd head 0 (· + pv) acc.p_per_head,
      r_per_head := alUpd head 0 (· + rv) acc.r_per_head,
      count_per_head := alUpd head 0 (· + count) acc.count_per_head }
    match pyDiv em count, pyDiv f1v count, pyDiv pv count, pyDiv rv count with
    | some a, some b, some c, some d =>
      gmInner st answer_type rest ta'
        { acc' with scores_per_answer_type_and_head := set2 answer_type head ⟨a, b, c, d, count⟩ acc'.scores_per_answer_type_and_head }
    | _, _, _, _ => none

/-- The outer loop over `self._answer_type_head_count.items()`
(lines 93-119): run the inner loop, then divide the type sums by the type
count for `scores_per_answer_type` (raises when the type count is zero). -/
def gmOuter (st : EmAndF1Evaluator) :
    List (String × List (String × ℕ)) → GMAcc → Option GMAcc
  | [], acc => some acc
  | (answer_type, head_count) :: rest, acc =>
    match gmInner st answer_type head_count ⟨0, 0, 0, 0, 0⟩ acc with
    | none => none
    | some (ta, acc1) =>
      match pyDiv ta.type_em ta.type_count, pyDiv ta.type_f1 ta.type_count,
          pyDiv ta.type_p ta.type_count, pyDiv ta.type_r ta.type_count with
      | some a, some b, some c, some d =>
        gmOuter st rest
          { acc1 with scores_per_answer_type := alSet answer_type ⟨a, b, c, d, ta.type_count⟩ acc1.scores_per_answer_type }
      | _, _, _, _ => none

/-- The final loop over `count_per_head.items()` (lines 121-122): per-head
sums divided by per-head counts. -/
def phLoop (em_per_head f1_per_head p_per_head r_per_head : List (String × ℚ)) :
    List (String × ℕ) → List (String × ViewEntry) → Option (List (String × ViewEntry))
  | [], res => some res
  | (head, count) :: rest, res =>
    match pyDiv (alGetD head 0 em_per_head) count, pyDiv (alGetD head 0 f1_per_head) count,
        pyDiv (alGetD head 0 p_per_head) count, pyDiv (alGetD head 0 r_per_head) count with
    | some a, some b, some c, some d =>
      phLoop em_per_head f1_per_head p_per_head r_per_head rest
        (alSet head ⟨a, b, c, d, count⟩ res)
    | _, _, _, _ => none

/-- `EmAndF1Evaluator.get_metric` (lines 70-126).  The four top-level
averages are guarded by `count > 0`; every other division can raise
(`none`), in which case the exception propagates before the optional reset
runs, leaving the state unchanged. -/
def get_metric (st : EmAndF1Evaluator) (reset : Bool) : Option Views × EmAndF1Evaluator :=
  let exact_match : ℚ := if st.count > 0 then st.total_em / st.count else 0
  let f1_score : ℚ := if st.count > 0 then st.total_f1 / st.count else 0
  let p_score : ℚ := if st.count > 0 then st.total_p / st.count else 0
  let r_score : ℚ := if st.count > 0 then st.total_r / st.count else 0
  match gmOuter st st.answer_type_head_count gmAccInit with
  | none => (none, st)
  | some acc =>
    match phLoop acc.em_per_head acc.f1_per_head acc.p_per_head acc.r_per_head
        acc.count_per_head [] with
    | none => (none, st)
    | some scores_per_head =>
      (some ⟨(exact_match, f1_score, p_score, r_score),
          acc.scores_per_answer_type_and_head, acc.scores_per_answer_type, scores_per_head⟩,
        if reset then .init else st)

/-! ### The accumulator invariant (C4) -/

lemma applyDelta_em (st : EmAndF1Evaluator) (d : Delta) :
    (applyDelta st d).answer_type_head_em
      = upd2 d.2.1 d.2.2 0 (· + d.1.em) st.answer_type_head_em := rfl

lemma applyDelta_f1 (st : EmAndF1Evaluator) (d : Delta) :
    (applyDelta st d).answer_type_head_f1
      = upd2 d.2.1 d.2.2 0 (· + d.1.f1) st.answer_type_head_f1 := rfl

lemma applyDelta_p (st : EmAndF1Evaluator) (d : Delta) :
    (applyDelta st d).answer_type_head_p
      = upd2 d.2.1 d.2.2 0 (· + d.1.p) st.answer_type_head_p := rfl

lemma applyDelta_r (st : EmAndF1Evaluator) (d : Delta) :
    (applyDelta st d).answer_type_head_r
      = upd2 d.2.1 d.2.2 0 (· + d.1.r) st.answer_type_head_r := rfl

lemma deltas_length {π α : Type} (normalize : α → Except PyErr (List String × String))
    (metric_fn : π → List String → Except PyErr Score) :
    ∀ (cs : List (CallIn π α)) (ds : List Delta),
      deltas normalize metric_fn cs = some ds → ds.length = cs.length
  | [], ds, h => by
    simp only [deltas, Option.some.injEq] at h
    rw [← h]
    rfl
  | c :: rest, ds, h => by
    simp only [deltas] at h
    cases hc : contrib normalize metric_fn c.1 c.2.1 with
    | none => rw [hc] at h; cases h
    | some v =>
      obtain ⟨sc, t, g⟩ := v
      rw [hc] at h
      cases hds : deltas normalize metric_fn rest with
      | none => rw [hds] at h; cases h
      | some ds' =>
        rw [hds] at h
        simp only [Option.some.injEq] at h
        rw [← h]
        simp only [List.length_cons]
        rw [deltas_length normalize metric_fn rest ds' hds]

/-- The part of the C4 invariant stated by the claim: the top-level count is
the sum of the per-cell counts, every cell of the count map is present in
all four value maps, and every cell count is at least 1. -/
def CountInv (st : EmAndF1Evaluator) : Prop :=
  st.count = cellSum st.answer_type_head_count
  ∧ (∀ t h, (lookup2 t h st.answer_type_head_count).isSome →
      (lookup2 t h st.answer_type_head_em).isSome
      ∧ (lookup2 t h st.answer_type_head_f1).isSome
      ∧ (lookup2 t h st.answer_type_head_p).isSome
      ∧ (lookup2 t h st.answer_type_head_r).isSome)
  ∧ (∀ t h c, lookup2 t h st.answer_type_head_count = some c → 1 ≤ c)

lemma CountInv_init : CountInv .init := by
  refine ⟨rfl, ?_, ?_⟩
  · intro t h hs
    simp [EmAndF1Evaluator.init, lookup2] at hs
  · intro t h c hc
    simp [EmAndF1Evaluator.init, lookup2] at hc

lemma CountInv_applyContrib (st : EmAndF1Evaluator) (sc : Score) (t a : String)
    (h : CountInv st) :
    CountInv (applyContrib st sc t a) ∧ (applyContrib st sc t a).count = st.count + 1 := by
  obtain ⟨h1, h2, h3⟩ := h
  have hcm : (applyContrib st sc t a).answer_type_head_count
      = upd2 t a 0 (· + 1) st.answer_type_head_count := rfl
  have hem : (applyContrib st sc t a).answer_type_head_em
      = upd2 t a 0 (· + sc.em) st.answer_type_head_em := rfl
  have hf1 : (applyContrib st sc t a).answer_type_head_f1
      = upd2 t a 0 (· + sc.f1) st.answer_type_head_f1 := rfl
  have hpp : (applyContrib st sc t a).answer_type_head_p
      = upd2 t a 0 (· + sc.p) st.answer_type_head_p := rfl
  have hrr : (applyContrib st sc t a).answer_type_head_r
      = upd2 t a 0 (· + sc.r) st.answer_type_head_r := rfl
  refine ⟨⟨?_, ?_, ?_⟩, rfl⟩
  · show st.count + 1 = cellSum (applyContrib st sc t a).answer_type_head_count
    rw [hcm, cellSum_upd2_add, h1]
  · intro t' h' hs
    rw [hcm] at hs
    by_cases hkey : t = t' ∧ a = h'
    · obtain ⟨ht, ha⟩ := hkey
      subst ht; subst ha
      rw [hem, hf1, hpp, hrr]
      refine ⟨?_, ?_, ?_, ?_⟩ <;> (rw [lookup2_upd2_self]; rfl)
    · have hne : t ≠ t' ∨ a ≠ h' := by
        by_cases ht : t = t'
        · right; intro ha; exact hkey ⟨ht, ha⟩
        · left; exact ht
      rw [lookup2_upd2_ne t a t' h' 0 _ _ hne] at hs
      obtain ⟨he, hf, hp, hr⟩ := h2 t' h' hs
      rw [hem, hf1, hpp, hrr]
      refine ⟨?_, ?_, ?_, ?_⟩ <;>
        · rw [lookup2_upd2_ne t a t' h' 0 _ _ hne]
          assumption
  · intro t' h' c hc
    rw [hcm] at hc
    by_cases hkey : t = t' ∧ a = h'
    · obtain ⟨ht, ha⟩ := hkey
      subst ht; subst ha
      rw [lookup2_upd2_self] at hc
      simp only [Option.some.injEq] at hc
      omega
    · have hne : t ≠ t' ∨ a ≠ h' := by
        by_cases ht : t = t'
        · right; intro ha; exact hkey ⟨ht, ha⟩
        · left; exact ht
      rw [lookup2_upd2_ne t a t' h' 0 _ _ hne] at hc
      exact h3 t' h' c hc

lemma CountInv_foldl (ds : List Delta) :
    ∀ st, CountInv st → CountInv (ds.foldl applyDelta st) := by
  induction ds with
  | nil => intro st h; exact h
  | cons d rest ih =>
    intro st h
    simp only [List.foldl_cons]
    exact ih (applyDelta st d) (CountInv_applyContrib st d.1 d.2.1 d.2.2 h).1

/-- C4: after any sequence of successful `call`s from a fresh (or freshly
reset) accumulator, the top-level count equals the number of calls and
equals the sum of all per-cell counts; every `(answer_type, head)` cell of
the count map is present in all four value maps and holds a count `≥ 1`.
The invariant holds initially, is preserved by every successful `call`
(which increments the count by one), by `reset`, and by `get_metric` with
either value of the reset flag. -/
theorem call_count_invariant {π α : Type}
    (normalize : α → Except PyErr (List String × String))
    (metric_fn : π → List String → Except PyErr Score) :
    (∀ (cs : List (CallIn π α)) (st : EmAndF1Evaluator),
      runCalls normalize metric_fn .init cs = some st →
      st.count = cs.length ∧ CountInv st)
    ∧ (∀ (st st' : EmAndF1Evaluator) (p : π) (gts : List α) (a : String)
        (out : Score × α), CountInv st →
        call normalize metric_fn st p gts a = (st', .ok out) →
        CountInv st' ∧ st'.count = st.count + 1)
    ∧ CountInv .init
    ∧ (∀ st : EmAndF1Evaluator, CountInv st.reset)
    ∧ (∀ (st : EmAndF1Evaluator) (r : Bool), CountInv st →
        CountInv (get_metric st r).2) := by
  refine ⟨?_, ?_, CountInv_init, fun _ => CountInv_init, ?_⟩
  · intro cs st hrun
    obtain ⟨ds, hds, hst⟩ := (runCalls_char normalize metric_fn cs .init st).mp hrun
    subst hst
    have hlen := deltas_length normalize metric_fn cs ds hds
    have hsc := foldl_applyDelta_scalars ds .init
    refine ⟨?_, CountInv_foldl ds .init CountInv_init⟩
    rw [hsc.1, ← hlen]
    simp [EmAndF1Evaluator.init]
  · intro st st' p gts a out hinv hcall
    obtain ⟨sc, g⟩ := out
    obtain ⟨t, _, hst⟩ :=
      (call_ok_char normalize metric_fn st st' p gts a sc g).mp hcall
    subst hst
    exact CountInv_applyContrib st sc t a hinv
  · intro st r hinv
    unfold get_metric
    cases hgm : gmOuter st st.answer_type_head_count gmAccInit with
    | none => simp only [hgm]; exact hinv
    | some acc =>
      simp only [hgm]
      cases hph : phLoop acc.em_per_head acc.f1_per_head acc.p_per_head acc.r_per_head
          acc.count_per_head [] with
      | none => simp only [hph]; exact hinv
      | some sph =>
        simp only [hph]
        cases r with
        | false => exact hinv
        | true => exact CountInv_init

/-- Witness for C4: a concrete two-call run. -/
theorem call_count_invariant_witness :
    ∃ st, runCalls normWS mfZero .init
        [("x", ["g"], "h"), ("x", ["g"], "k")] = some st
      ∧ st.count = 2 ∧ CountInv st := by
  rcases hrun : runCalls normWS mfZero .init
      [(("x" : String), (["g"] : List String), ("h" : String)), ("x", ["g"], "k")] with _ | st
  · exact absurd hrun (by decide)
  · obtain ⟨hc, hinv⟩ := (call_count_invariant normWS mfZero).1
      [("x", ["g"], "h"), ("x", ["g"], "k")] st hrun
    exact ⟨st, rfl, hc, hinv⟩

lemma get_metric_overall_aux (st : EmAndF1Evaluator) (r : Bool) (v : Views)
    (st' : EmAndF1Evaluator) (h : get_metric st r = (some v, st')) :
    v.overall = (if st.count > 0 then st.total_em / st.count else 0,
      if st.count > 0 then st.total_f1 / st.count else 0,
      if st.count > 0 then st.total_p / st.count else 0,
      if st.count > 0 then st.total_r / st.count else 0) := by
  unfold get_metric at h
  cases hgm : gmOuter st st.answer_type_head_count gmAccInit with
  | none => simp [hgm] at h
  | some acc =>
    simp only [hgm] at h
    cases hph : phLoop acc.em_per_head acc.f1_per_head acc.p_per_head acc.r_per_head
        acc.count_per_head [] with
    | none => simp [hph] at h
    | some sph =>
      simp only [hph, Prod.mk.injEq, Option.some.injEq] at h
      rw [← h.1]

/-- C5 (amended): `get_metric` returns the overall view as the quadruple
`(mean_em, mean_f1, mean_p, mean_r)` — each top-level sum divided by the
top-level count, or `0` when the count is zero.  Unlike the three breakdown
views, the overall view does *not* carry a support count. -/
theorem get_metric_overall (st : EmAndF1Evaluator) (r : Bool) (v : Views)
    (st' : EmAndF1Evaluator) (h : get_metric st r = (some v, st')) :
    v.overall = (if st.count > 0 then st.total_em / st.count else 0,
      if st.count > 0 then st.total_f1 / st.count else 0,
      if st.count > 0 then st.total_p / st.count else 0,
      if st.count > 0 then st.total_r / st.count else 0) :=
  get_metric_overall_aux st r v st' h

/-- Witness for C5's amended theorem at the freshly-constructed state. -/
theorem get_metric_overall_witness :
    (Views.mk (0, 0, 0, 0) [] [] []).overall
      = (if EmAndF1Evaluator.init.count > 0
            then EmAndF1Evaluator.init.total_em / EmAndF1Evaluator.init.count else 0,
          if EmAndF1Evaluator.init.count > 0
            then EmAndF1Evaluator.init.total_f1 / EmAndF1Evaluator.init.count else 0,
          if EmAndF1Evaluator.init.count > 0
            then EmAndF1Evaluator.init.total_p / EmAndF1Evaluator.init.count else 0,
          if EmAndF1Evaluator.init.count > 0
            then EmAndF1Evaluator.init.total_r / EmAndF1Evaluator.init.count else 0) :=
  get_metric_overall .init false (Views.mk (0, 0, 0, 0) [] [] []) .init rfl

/-- The accumulator after one successful zero-score call. -/
def st1c : EmAndF1Evaluator := (call normWS mfZero .init "x" ["g"] "h").1

/-- The accumulator after a second successful zero-score call. -/
def st2c : EmAndF1Evaluator := (call normWS mfZero st1c "x" ["g"] "h").1

/-- Counterexample to C5 as stated: two reachable states whose top-level
counts differ (1 vs 2) give *identical* overall views, so the overall view
returned by `get_metric` does not include (nor determine) the support
count — it is a bare 4-tuple of averages. -/
theorem get_metric_overall_drops_support_count :
    (call normWS mfZero .init "x" ["g"] "h").2 = .ok (⟨0, 0, 0, 0⟩, "g")
    ∧ (call normWS mfZero st1c "x" ["g"] "h").2 = .ok (⟨0, 0, 0, 0⟩, "g")
    ∧ st1c.count = 1 ∧ st2c.count = 2
    ∧ ((get_metric st1c false).1.map Views.overall)
        = ((get_metric st2c false).1.map Views.overall) := by
  have hcall1 : call normWS mfZero .init "x" ["g"] "h"
      = (applyContrib .init ⟨0, 0, 0, 0⟩ "span" "h", .ok (⟨0, 0, 0, 0⟩, "g")) :=
    call_of_contrib_some normWS mfZero .init "x" ["g"] "h" ⟨0, 0, 0, 0⟩ "span" "g" rfl
  have hst1 : st1c = applyContrib .init ⟨0, 0, 0, 0⟩ "span" "h" := by
    show (call normWS mfZero .init "x" ["g"] "h").1 = _
    rw [hcall1]
  have hcall2 : call normWS mfZero st1c "x" ["g"] "h"
      = (applyContrib st1c ⟨0, 0, 0, 0⟩ "span" "h", .ok (⟨0, 0, 0, 0⟩, "g")) :=
    call_of_contrib_some normWS mfZero st1c "x" ["g"] "h" ⟨0, 0, 0, 0⟩ "span" "g" rfl
  have hst2 : st2c = applyContrib st1c ⟨0, 0, 0, 0⟩ "span" "h" := by
    show (call normWS mfZero st1c "x" ["g"] "h").1 = _
    rw [hcall2]
  obtain ⟨v1, hv1⟩ : ∃ v, get_metric st1c false = (some v, st1c) := ⟨_, rfl⟩
  obtain ⟨v2, hv2⟩ : ∃ v, get_metric st2c false = (some v, st2c) := ⟨_, rfl⟩
  have e1 := get_metric_overall_aux st1c false v1 st1c hv1
  have e2 := get_metric_overall_aux st2c false v2 st2c hv2
  refine ⟨by rw [hcall1], by rw [hcall2], rfl, rfl, ?_⟩
  rw [hv1, hv2]
  simp only [Option.map_some']
  rw [e1, e2]
  have c1 : st1c.count = 1 := rfl
  have c2 : st2c.count = 2 := rfl
  rw [c1, c2, hst1, hst2]
  norm_num [applyContrib, EmAndF1Evaluator.init, hst1]

/-! ### `get_metric` never divides by zero on reachable states (C7) -/

lemma alUpd_ne_nil {γ : Type} (k : String) (dflt : γ) (f : γ → γ) :
    ∀ l : List (String × γ), alUpd k dflt f l ≠ []
  | [] => by simp [alUpd]
  | (k', v) :: rest => by
    unfold alUpd
    by_cases h : k' = k <;> simp [h]

lemma alUpd_mem {γ : Type} (k : String) (dflt : γ) (f : γ → γ) :
    ∀ (l : List (String × γ)) (q : String × γ), q ∈ alUpd k dflt f l →
      q ∈ l ∨ q = (k, f dflt) ∨ ∃ v, (k, v) ∈ l ∧ q = (k, f v)
  | [], q, h => by
    simp only [alUpd, List.mem_singleton] at h
    exact Or.inr (Or.inl h)
  | (k', v) :: rest, q, h => by
    unfold alUpd at h
    by_cases hk : k' = k
    · rw [if_pos hk] at h
      rcases List.mem_cons.mp h with h | h
      · refine Or.inr (Or.inr ⟨v, ?_, ?_⟩)
        · rw [← hk]
          exact List.mem_cons_self _ _
        · rw [h, hk]
      · exact Or.inl (List.mem_cons_of_mem _ h)
    · rw [if_neg hk] at h
      rcases List.mem_cons.mp h with h | h
      · left
        rw [h]
        exact List.mem_cons_self _ _
      · rcases alUpd_mem k dflt f rest q h with h | h | ⟨w, hw, hq⟩
        · exact Or.inl (List.mem_cons_of_mem _ h)
        · exact Or.inr (Or.inl h)
        · exact Or.inr (Or.inr ⟨w, List.mem_cons_of_mem _ hw, hq⟩)

lemma alUpd_add_pos (k : String) (c : ℕ) (hc : 1 ≤ c) (l : List (String × ℕ))
    (hl : ∀ w ∈ l, 1 ≤ w.2) : ∀ w ∈ alUpd k 0 (· + c) l, 1 ≤ w.2 := by
  intro w hw
  rcases alUpd_mem k 0 (· + c) l w hw with h | h | ⟨v, hv, h⟩
  · exact hl w h
  · rw [h]
    simpa using hc
  · rw [h]
    have := hl (k, v) hv
    simp only
    omega

/-- The count map of every reachable state: non-empty inner dicts with all
cell counts at least 1. -/
def countMapOK (m : Dict2 ℕ) : Prop :=
  (∀ q ∈ m, q.2 ≠ []) ∧ (∀ q ∈ m, ∀ w ∈ q.2, 1 ≤ w.2)

lemma countMapOK_upd2 (t h : String) (m : Dict2 ℕ) (hm : countMapOK m) :
    countMapOK (upd2 t h 0 (· + 1) m) := by
  obtain ⟨hne, hpos⟩ := hm
  constructor
  · intro q hq
    rcases alUpd_mem t [] (alUpd h 0 (· + 1)) m q hq with h1 | h1 | ⟨v, hv, h1⟩
    · exact hne q h1
    · rw [h1]
      exact alUpd_ne_nil h 0 (· + 1) []
    · rw [h1]
      exact alUpd_ne_nil h 0 (· + 1) v
  · intro q hq w hw
    rcases alUpd_mem t [] (alUpd h 0 (· + 1)) m q hq with h1 | h1 | ⟨v, hv, h1⟩
    · exact hpos q h1 w hw
    · subst h1
      simp only [alUpd, List.mem_singleton] at hw
      rw [hw]
    · subst h1
      simp only at hw
      rcases alUpd_mem h 0 (· + 1) v w hw with h2 | h2 | ⟨u, hu, h2⟩
      · exact hpos (t, v) hv w h2
      · rw [h2]
      · rw [h2]
        show 1 ≤ u + 1
        omega

lemma countMapOK_foldl (ds : List Delta) :
    ∀ st : EmAndF1Evaluator, countMapOK st.answer_type_head_count →
      countMapOK (ds.foldl applyDelta st).answer_type_head_count := by
  induction ds with
  | nil => intro st h; exact h
  | cons d rest ih =>
    intro st h
    simp only [List.foldl_cons]
    refine ih (applyDelta st d) ?_
    have hcm : (applyDelta st d).answer_type_head_count
        = upd2 d.2.1 d.2.2 0 (· + 1) st.answer_type_head_count := rfl
    rw [hcm]
    exact countMapOK_upd2 d.2.1 d.2.2 st.answer_type_head_count h

lemma innerSum_cons (k : String) (c : ℕ) (l : List (String × ℕ)) :
    innerSum ((k, c) :: l) = c + innerSum l := by
  simp [innerSum]

lemma innerSum_pos (inner : List (String × ℕ)) (hne : inner ≠ [])
    (hpos : ∀ w ∈ inner, 1 ≤ w.2) : 1 ≤ innerSum inner := by
  cases inner with
  | nil => exact absurd rfl hne
  | cons w rest =>
    have := hpos w (List.mem_cons_self _ _)
    obtain ⟨k, c⟩ := w
    rw [innerSum_cons]
    simp only at this
    omega

/-- One step of the inner loop with a nonzero cell count, fully expanded. -/
lemma gmInner_cons_eq (st : EmAndF1Evaluator) (t head : String) (count : ℕ)
    (rest : List (String × ℕ)) (ta : TypeAcc) (acc : GMAcc) (hcz : count ≠ 0) :
    gmInner st t ((head, count) :: rest) ta acc =
      gmInner st t rest
        ⟨ta.type_count + count,
         ta.type_em + get2 t head 0 st.answer_type_head_em,
         ta.type_f1 + get2 t head 0 st.answer_type_head_f1,
         ta.type_p + get2 t head 0 st.answer_type_head_p,
         ta.type_r + get2 t head 0 st.answer_type_head_r⟩
        { scores_per_answer_type_and_head := set2 t head
            ⟨get2 t head 0 st.answer_type_head_em / count,
             get2 t head 0 st.answer_type_head_f1 / count,
             get2 t head 0 st.answer_type_head_p / count,
             get2 t head 0 st.answer_type_head_r / count, count⟩
            acc.scores_per_answer_type_and_head,
          scores_per_answer_type := acc.scores_per_answer_type,
          em_per_head := alUpd head 0 (· + get2 t head 0 st.answer_type_head_em) acc.em_per_head,
          f1_per_head := alUpd head 0 (· + get2 t head 0 st.answer_type_head_f1) acc.f1_per_head,
          p_per_head := alUpd head 0 (· + get2 t head 0 st.answer_type_head_p) acc.p_per_head,
          r_per_head := alUpd head 0 (· + get2 t head 0 st.answer_type_head_r) acc.r_per_head,
          count_per_head := alUpd head 0 (· + count) acc.count_per_head } := by
  simp only [gmInner, pyDiv, if_neg hcz]

/-- One step of the outer loop with a nonzero type count. -/
lemma gmOuter_cons_eq (st : EmAndF1Evaluator) (t : String) (inner : List (String × ℕ))
    (rest : List (String × List (String × ℕ))) (acc : GMAcc) (ta : TypeAcc) (acc1 : GMAcc)
    (hin : gmInner st t inner ⟨0, 0, 0, 0, 0⟩ acc = some (ta, acc1))
    (htc : ta.type_count ≠ 0) :
    gmOuter st ((t, inner) :: rest) acc =
      gmOuter st rest
        { acc1 with scores_per_answer_type := alSet t ⟨ta.type_em / ta.type_count, ta.type_f1 / ta.type_count, ta.type_p / ta.type_count, ta.type_r / ta.type_count, ta.type_count⟩ acc1.scores_per_answer_type } := by
  simp only [gmOuter, hin, pyDiv, if_neg htc]

lemma gmInner_some (st : EmAndF1Evaluator) (t : String) :
    ∀ (inner : List (String × ℕ)) (ta : TypeAcc) (acc : GMAcc),
      (∀ w ∈ inner, 1 ≤ w.2) →
      (∀ w ∈ acc.count_per_head, 1 ≤ w.2) →
      ∃ ta' acc', gmInner st t inner ta acc = some (ta', acc')
        ∧ ta'.type_count = ta.type_count + innerSum inner
        ∧ (∀ w ∈ acc'.count_per_head, 1 ≤ w.2)
  | [], ta, acc, _, hacc => ⟨ta, acc, rfl, by simp [innerSum], hacc⟩
  | (head, count) :: rest, ta, acc, hpos, hacc => by
    have hc : 1 ≤ count := hpos (head, count) (List.mem_cons_self _ _)
    have hcz : count ≠ 0 := by omega
    rw [gmInner_cons_eq st t head count rest ta acc hcz]
    obtain ⟨ta', acc', h1, h2, h3⟩ := gmInner_some st t rest
      ⟨ta.type_count + count, ta.type_em + get2 t head 0 st.answer_type_head_em,
       ta.type_f1 + get2 t head 0 st.answer_type_head_f1,
       ta.type_p + get2 t head 0 st.answer_type_head_p,
       ta.type_r + get2 t head 0 st.answer_type_head_r⟩
      { scores_per_answer_type_and_head := set2 t head ⟨get2 t head 0 st.answer_type_head_em / count, get2 t head 0 st.answer_type_head_f1 / count, get2 t head 0 st.answer_type_head_p / count, get2 t head 0 st.answer_type_head_r / count, count⟩ acc.scores_per_answer_type_and_head,
        scores_per_answer_type := acc.scores_per_answer_type,
        em_per_head := alUpd head 0 (· + get2 t head 0 st.answer_type_head_em) acc.em_per_head,
        f1_per_head := alUpd head 0 (· + get2 t head 0 st.answer_type_head_f1) acc.f1_per_head,
        p_per_head := alUpd head 0 (· + get2 t head 0 st.answer_type_head_p) acc.p_per_head,
        r_per_head := alUpd head 0 (· + get2 t head 0 st.answer_type_head_r) acc.r_per_head,
        count_per_head := alUpd head 0 (· + count) acc.count_per_head }
      (fun w hw => hpos w (List.mem_cons_of_mem _ hw))
      (alUpd_add_pos head count hc acc.count_per_head hacc)
    refine ⟨ta', acc', h1, ?_, h3⟩
    rw [h2, innerSum_cons]
    simp only
    omega

lemma gmOuter_some (st : EmAndF1Evaluator) :
    ∀ (l : List (String × List (String × ℕ))) (acc : GMAcc),
      (∀ p ∈ l, p.2 ≠ [] ∧ ∀ w ∈ p.2, 1 ≤ w.2) →
      (∀ w ∈ acc.count_per_head, 1 ≤ w.2) →
      ∃ acc', gmOuter st l acc = some acc' ∧ (∀ w ∈ acc'.count_per_head, 1 ≤ w.2)
  | [], acc, _, hacc => ⟨acc, rfl, hacc⟩
  | (t, inner) :: rest, acc, hl, hacc => by
    obtain ⟨hne, hpos⟩ := hl (t, inner) (List.mem_cons_self _ _)
    obtain ⟨ta, acc1, hin, htc, hacc1⟩ :=
      gmInner_some st t inner ⟨0, 0, 0, 0, 0⟩ acc hpos hacc
    have htcpos : ta.type_count ≠ 0 := by
      rw [htc]
      have := innerSum_pos inner hne hpos
      simp only
      omega
    rw [gmOuter_cons_eq st t inner rest acc ta acc1 hin htcpos]
    exact gmOuter_some st rest _ (fun p hp => hl p (List.mem_cons_of_mem _ hp)) hacc1

lemma phLoop_some (em_per_head f1_per_head p_per_head r_per_head : List (String × ℚ)) :
    ∀ (cph : List (String × ℕ)) (res : List (String × ViewEntry)),
      (∀ w ∈ cph, 1 ≤ w.2) →
      ∃ out, phLoop em_per_head f1_per_head p_per_head r_per_head cph res = some out
  | [], res, _ => ⟨res, rfl⟩
  | (head, count) :: rest, res, hpos => by
    have hc : count ≠ 0 := by
      have := hpos (head, count) (List.mem_cons_self _ _)
      simp only at this
      omega
    simp only [phLoop, pyDiv, if_neg hc]
    exact phLoop_some em_per_head f1_per_head p_per_head r_per_head rest _
      (fun w hw => hpos w (List.mem_cons_of_mem _ hw))

/-- C7: `get_metric` never raises `ZeroDivisionError` in any reachable
accumulator state.  The four top-level divisions are guarded by the
`count > 0` check in the code itself; every per-cell, per-type and per-head
divisor is at least 1 because only observed cells — with counts `≥ 1` and
non-empty inner dicts — are iterated.  Stated both for any state satisfying
that invariant and for every state reached by successful calls from a fresh
accumulator. -/
theorem get_metric_no_division_by_zero {π α : Type}
    (normalize : α → Except PyErr (List String × String))
    (metric_fn : π → List String → Except PyErr Score) :
    (∀ (st : EmAndF1Evaluator) (r : Bool), countMapOK st.answer_type_head_count →
      ∃ v st', get_metric st r = (some v, st'))
    ∧ (∀ (cs : List (CallIn π α)) (st : EmAndF1Evaluator) (r : Bool),
        runCalls normalize metric_fn .init cs = some st →
        ∃ v st', get_metric st r = (some v, st')) := by
  have main : ∀ (st : EmAndF1Evaluator) (r : Bool), countMapOK st.answer_type_head_count →
      ∃ v st', get_metric st r = (some v, st') := by
    intro st r hok
    obtain ⟨hne, hpos⟩ := hok
    obtain ⟨acc, hacc, haccpos⟩ := gmOuter_some st st.answer_type_head_count gmAccInit
      (fun p hp => ⟨hne p hp, hpos p hp⟩) (by intro w hw; simp [gmAccInit] at hw)
    obtain ⟨out, hout⟩ := phLoop_some acc.em_per_head acc.f1_per_head acc.p_per_head
      acc.r_per_head acc.count_per_head [] haccpos
    unfold get_metric
    simp only [hacc, hout]
    exact ⟨_, _, rfl⟩
  constructor
  · exact main
  · intro cs st r hrun
    obtain ⟨ds, _, hst⟩ := (runCalls_char normalize metric_fn cs .init st).mp hrun
    subst hst
    refine main _ r (countMapOK_foldl ds .init ?_)
    constructor
    · intro q hq
      simp [EmAndF1Evaluator.init] at hq
    · intro q hq
      simp [EmAndF1Evaluator.init] at hq

/-- Witness for C7 at a concrete reachable state. -/
theorem get_metric_no_division_by_zero_witness :
    ∃ v st', get_metric st1c true = (some v, st') :=
  (get_metric_no_division_by_zero normWS mfZero).2 [("x", ["g"], "h")] st1c true rfl

/-! ### Characterization of the `get_metric` breakdown views (C6) -/

lemma alGetD_alUpd_self {γ : Type} (k : String) (dflt : γ) (f : γ → γ)
    (l : List (String × γ)) : alGetD k dflt (alUpd k dflt f l) = f (alGetD k dflt l) := by
  unfold alGetD
  rw [alGet?_alUpd_self]
  rfl

lemma alGetD_alUpd_ne {γ : Type} (k k' : String) (dflt : γ) (f : γ → γ) (h : k ≠ k')
    (l : List (String × γ)) : alGetD k' dflt (alUpd k dflt f l) = alGetD k' dflt l := by
  unfold alGetD
  rw [alGet?_alUpd_ne k k' dflt f h]

lemma alGetD_cons {γ : Type} (k k' : String) (v : γ) (dflt : γ) (rest : List (String × γ)) :
    alGetD k dflt ((k', v) :: rest) = if k' = k then v else alGetD k dflt rest := by
  unfold alGetD
  rw [alGet?_cons]
  by_cases h : k' = k
  · simp [h]
  · simp [h]

/-- Full characterization of one run of the inner loop of `get_metric`, for
an inner dict with distinct keys: the type sums grow by the sums over the
inner dict; the per-type dict is untouched; the per-cell view gains exactly
the `(t, h)` cells of the inner dict; each per-head accumulator gains this
type's contribution at exactly the heads of the inner dict. -/
lemma gmInner_char (st : EmAndF1Evaluator) (t : String) :
    ∀ (inner : List (String × ℕ)) (ta : TypeAcc) (acc : GMAcc) (ta' : TypeAcc) (acc' : GMAcc),
      gmInner st t inner ta acc = some (ta', acc') →
      (alKeys inner).Nodup →
      (ta'.type_count = ta.type_count + innerSum inner
        ∧ ta'.type_em = ta.type_em
            + (inner.map (fun w => get2 t w.1 0 st.answer_type_head_em)).sum
        ∧ ta'.type_f1 = ta.type_f1
            + (inner.map (fun w => get2 t w.1 0 st.answer_type_head_f1)).sum
        ∧ ta'.type_p = ta.type_p
            + (inner.map (fun w => get2 t w.1 0 st.answer_type_head_p)).sum
        ∧ ta'.type_r = ta.type_r
            + (inner.map (fun w => get2 t w.1 0 st.answer_type_head_r)).sum)
      ∧ acc'.scores_per_answer_type = acc.scores_per_answer_type
      ∧ (∀ t' h', lookup2 t' h' acc'.scores_per_answer_type_and_head =
          if t' = t ∧ (alGet? h' inner).isSome then
            some ⟨get2 t h' 0 st.answer_type_head_em / alGetD h' 0 inner,
                  get2 t h' 0 st.answer_type_head_f1 / alGetD h' 0 inner,
                  get2 t h' 0 st.answer_type_head_p / alGetD h' 0 inner,
                  get2 t h' 0 st.answer_type_head_r / alGetD h' 0 inner,
                  alGetD h' 0 inner⟩
          else lookup2 t' h' acc.scores_per_answer_type_and_head)
      ∧ (∀ h, alGet? h acc'.em_per_head = if (alGet? h inner).isSome
            then some (alGetD h 0 acc.em_per_head + get2 t h 0 st.answer_type_head_em)
            else alGet? h acc.em_per_head)
      ∧ (∀ h, alGet? h acc'.f1_per_head = if (alGet? h inner).isSome
            then some (alGetD h 0 acc.f1_per_head + get2 t h 0 st.answer_type_head_f1)
            else alGet? h acc.f1_per_head)
      ∧ (∀ h, alGet? h acc'.p_per_head = if (alGet? h inner).isSome
            then some (alGetD h 0 acc.p_per_head + get2 t h 0 st.answer_type_head_p)
            else alGet? h acc.p_per_head)
      ∧ (∀ h, alGet? h acc'.r_per_head = if (alGet? h inner).isSome
            then some (alGetD h 0 acc.r_per_head + get2 t h 0 st.answer_type_head_r)
            else alGet? h acc.r_per_head)
      ∧ (∀ h, alGet? h acc'.count_per_head = if (alGet? h inner).isSome
            then some (alGetD h 0 acc.count_per_head + alGetD h 0 inner)
            else alGet? h acc.count_per_head)
      ∧ ((alKeys acc.count_per_head).Nodup → (alKeys acc'.count_per_head).Nodup)
  | [], ta, acc, ta', acc', hgm, _ => by
    simp only [gmInner, Option.some.injEq, Prod.mk.injEq] at hgm
    obtain ⟨hta, hacc⟩ := hgm
    subst hta; subst hacc
    refine ⟨⟨by simp [innerSum], by simp, by simp, by simp, by simp⟩, rfl, ?_, ?_, ?_, ?_, ?_,
      ?_, fun h => h⟩
    · intro t' h'
      simp [alGet?]
    · intro h
      simp [alGet?]
    · intro h
      simp [alGet?]
    · intro h
      simp [alGet?]
    · intro h
      simp [alGet?]
    · intro h
      simp [alGet?]
  | (head, c) :: rest, ta, acc, ta', acc', hgm, hnd => by
    have hcz : c ≠ 0 := by
      intro hc
      subst hc
      simp [gmInner, pyDiv] at hgm
    rw [gmInner_cons_eq st t head c rest ta acc hcz] at hgm
    have hnd' : (alKeys rest).Nodup := by
      rw [alKeys_cons] at hnd
      exact hnd.of_cons
    have hhead : head ∉ alKeys rest := by
      rw [alKeys_cons] at hnd
      exact (List.nodup_cons.mp hnd).1
    have hheadnone : alGet? head rest = none := by
      cases hx : alGet? head rest with
      | none => rfl
      | some y =>
        exfalso
        apply hhead
        rw [← alGet?_isSome_iff_mem_keys, hx]
        rfl
    obtain ⟨⟨htc, hte, htf, htp, htr⟩, hpt, hptph, hem, hf1, hpp, hrr, hcph, hndp⟩ :=
      gmInner_char st t rest _ _ ta' acc' hgm hnd'
    dsimp only at htc hte htf htp htr hpt hptph hem hf1 hpp hrr hcph hndp
    refine ⟨⟨?_, ?_, ?_, ?_, ?_⟩, hpt, ?_, ?_, ?_, ?_, ?_, ?_, ?_⟩
    · rw [htc, innerSum_cons]
      omega
    · rw [hte]
      simp only [List.map_cons, List.sum_cons]
      ring
    · rw [htf]
      simp only [List.map_cons, List.sum_cons]
      ring
    · rw [htp]
      simp only [List.map_cons, List.sum_cons]
      ring
    · rw [htr]
      simp only [List.map_cons, List.sum_cons]
      ring
    · intro t' h'
      rw [hptph t' h', alGet?_cons h' head c rest, alGetD_cons h' head c 0 rest]
      by_cases hh : head = h'
      · subst hh
        by_cases ht' : t' = t
        · subst ht'
          simp [hheadnone, lookup2_set2_self]
        · simp only [hheadnone, Option.isSome_none, Bool.false_eq_true, and_false, if_false]
          rw [lookup2_set2_ne t head t' head _ _ (Or.inl (fun hq => ht' hq.symm))]
          simp [ht']
      · rw [if_neg hh]
        by_cases hx : (alGet? h' rest).isSome
        · by_cases ht' : t' = t
          · simp [ht', hx, hh]
          · simp only [ht', false_and, if_false]
            rw [lookup2_set2_ne t head t' h' _ _ (Or.inl (fun hq => ht' hq.symm))]
        · simp only [hx, Bool.false_eq_true, and_false, if_false]
          rw [lookup2_set2_ne t head t' h' _ _ (Or.inr hh)]
    · intro h
      rw [hem h, alGet?_cons h head c rest]
      by_cases hh : head = h
      · subst hh
        rw [hheadnone]
        simp only [Option.isSome_none, Bool.false_eq_true, if_false, if_pos rfl,
          Option.isSome_some, if_true]
        rw [alGet?_alUpd_self]
      · rw [if_neg hh]
        by_cases hx : (alGet? h rest).isSome
        · simp only [hx, if_true]
          rw [alGetD_alUpd_ne head h 0 _ hh]
        · simp only [hx, Bool.false_eq_true, if_false]
          rw [alGet?_alUpd_ne head h 0 _ hh]
    · intro h
      rw [hf1 h, alGet?_cons h head c rest]
      by_cases hh : head = h
      · subst hh
        rw [hheadnone]
        simp only [Option.isSome_none, Bool.false_eq_true, if_false, if_pos rfl,
          Option.isSome_some, if_true]
        rw [alGet?_alUpd_self]
      · rw [if_neg hh]
        by_cases hx : (alGet? h rest).isSome
        · simp only [hx, if_true]
          rw [alGetD_alUpd_ne head h 0 _ hh]
        · simp only [hx, Bool.false_eq_true, if_false]
          rw [alGet?_alUpd_ne head h 0 _ hh]
    · intro h
      rw [hpp h, alGet?_cons h head c rest]
      by_cases hh : head = h
      · subst hh
        rw [hheadnone]
        simp only [Option.isSome_none, Bool.false_eq_true, if_false, if_pos rfl,
          Option.isSome_some, if_true]
        rw [alGet?_alUpd_self]
      · rw [if_neg hh]
        by_cases hx : (alGet? h rest).isSome
        · simp only [hx, if_true]
          rw [alGetD_alUpd_ne head h 0 _ hh]
        · simp only [hx, Bool.false_eq_true, if_false]
          rw [alGet?_alUpd_ne head h 0 _ hh]
    · intro h
      rw [hrr h, alGet?_cons h head c rest]
      by_cases hh : head = h
      · subst hh
        rw [hheadnone]
        simp only [Option.isSome_none, Bool.false_eq_true, if_false, if_pos rfl,
          Option.isSome_some, if_true]
        rw [alGet?_alUpd_self]
      · rw [if_neg hh]
        by_cases hx : (alGet? h rest).isSome
        · simp only [hx, if_true]
          rw [alGetD_alUpd_ne head h 0 _ hh]
        · simp only [hx, Bool.false_eq_true, if_false]
          rw [alGet?_alUpd_ne head h 0 _ hh]
    · intro h
      rw [hcph h, alGet?_cons h head c rest, alGetD_cons h head c 0 rest]
      by_cases hh : head = h
      · subst hh
        simp [hheadnone]
      · rw [if_neg hh]
        by_cases hx : (alGet? h rest).isSome
        · simp only [hx, if_true]
          rw [alGetD_alUpd_ne head h 0 _ hh, if_neg hh]
        · simp only [hx, Bool.false_eq_true, if_false]
          rw [alGet?_alUpd_ne head h 0 _ hh]
    · intro hnodup
      exact hndp (alKeys_alUpd_nodup head 0 (· + c) acc.count_per_head hnodup)

/-- The per-cell view of the spec: the cell's accumulated values divided by
the cell's count, with the count as support. -/
def cellView (st : EmAndF1Evaluator) (t h : String) (c : ℕ) : ViewEntry :=
  ⟨get2 t h 0 st.answer_type_head_em / c, get2 t h 0 st.answer_type_head_f1 / c,
   get2 t h 0 st.answer_type_head_p / c, get2 t h 0 st.answer_type_head_r / c, c⟩

/-- The spec's per-type sum: a value map summed across the heads recorded
for the type in the count map. -/
def typeSum (m : Dict2 ℚ) (t : String) (inner : List (String × ℕ)) : ℚ :=
  (inner.map (fun w => get2 t w.1 0 m)).sum

/-- The spec's per-type view: sums across all heads for the type divided by
the total count for the type, with that count as support. -/
def typeView (st : EmAndF1Evaluator) (t : String) (inner : List (String × ℕ)) : ViewEntry :=
  ⟨typeSum st.answer_type_head_em t inner / innerSum inner,
   typeSum st.answer_type_head_f1 t inner / innerSum inner,
   typeSum st.answer_type_head_p t inner / innerSum inner,
   typeSum st.answer_type_head_r t inner / innerSum inner, innerSum inner⟩

/-- Does head `h` occur in some `(type, head)` cell of the count map? -/
def headPresent (l : Dict2 ℕ) (h : String) : Bool :=
  l.any (fun p => (alGet? h p.2).isSome)

/-- The spec's per-head sum of a value map across all types observed for a
head. -/
def headSum (m : Dict2 ℚ) (l : Dict2 ℕ) (h : String) : ℚ :=
  (l.map (fun p => if (alGet? h p.2).isSome then get2 p.1 h 0 m else 0)).sum

/-- The spec's total count for a head across all types. -/
def headCount (l : Dict2 ℕ) (h : String) : ℕ :=
  (l.map (fun p => alGetD h 0 p.2)).sum

lemma headSum_of_not_present (m : Dict2 ℚ) (h : String) :
    ∀ l : Dict2 ℕ, headPresent l h = false → headSum m l h = 0
  | [], _ => rfl
  | p :: rest, hp => by
    simp only [headPresent, List.any_cons, Bool.or_eq_false_iff] at hp
    simp only [headSum, List.map_cons, List.sum_cons, hp.1, Bool.false_eq_true, if_false,
      zero_add]
    exact headSum_of_not_present m h rest hp.2

lemma headCount_of_not_present (h : String) :
    ∀ l : Dict2 ℕ, headPresent l h = false → headCount l h = 0
  | [], _ => rfl
  | p :: rest, hp => by
    simp only [headPresent, List.any_cons, Bool.or_eq_false_iff] at hp
    have h1 : alGetD h 0 p.2 = 0 := by
      unfold alGetD
      cases hx : alGet? h p.2 with
      | none => rfl
      | some y =>
        rw [hx] at hp
        simp at hp
    simp only [headCount, List.map_cons, List.sum_cons, h1, zero_add]
    exact headCount_of_not_present h rest hp.2

lemma perHead_combine (A0 A1 A2 : List (String × ℚ)) (h : String) (b c : Bool) (x s : ℚ)
    (hacc2 : alGet? h A1 = if b then some (alGetD h 0 A0 + x) else alGet? h A0)
    (ih : alGet? h A2 = if c then some (alGetD h 0 A1 + s) else alGet? h A1)
    (hs0 : c = false → s = 0) :
    alGet? h A2 = if (b || c)
      then some (alGetD h 0 A0 + ((if b then x else 0) + s))
      else alGet? h A0 := by
  cases b with
  | false =>
    simp only [Bool.false_eq_true, if_false] at hacc2 ⊢
    cases c with
    | false =>
      simp only [Bool.false_eq_true, if_false] at ih
      simp only [Bool.or_false, Bool.false_eq_true, if_false]
      rw [ih, hacc2]
    | true =>
      simp only [if_true] at ih
      simp only [Bool.or_true, if_true]
      rw [ih]
      have hgd : alGetD h 0 A1 = alGetD h 0 A0 := by
        unfold alGetD
        rw [hacc2]
      rw [hgd]
      congr 1
      ring
  | true =>
    simp only [if_true] at hacc2 ⊢
    cases c with
    | false =>
      simp only [Bool.false_eq_true, if_false] at ih
      simp only [Bool.true_or, if_true]
      rw [ih, hacc2, hs0 rfl]
      congr 1
      ring
    | true =>
      simp only [if_true] at ih
      simp only [Bool.true_or, if_true]
      rw [ih]
      have hgd : alGetD h 0 A1 = alGetD h 0 A0 + x := by
        unfold alGetD
        rw [hacc2]
        rfl
      rw [hgd]
      congr 1
      ring

lemma perHead_combineN (A0 A1 A2 : List (String × ℕ)) (h : String) (b c : Bool) (x s : ℕ)
    (hacc2 : alGet? h A1 = if b then some (alGetD h 0 A0 + x) else alGet? h A0)
    (ih : alGet? h A2 = if c then some (alGetD h 0 A1 + s) else alGet? h A1)
    (hs0 : c = false → s = 0) (hx0 : b = false → x = 0) :
    alGet? h A2 = if (b || c) then some (alGetD h 0 A0 + (x + s)) else alGet? h A0 := by
  cases b with
  | false =>
    simp only [Bool.false_eq_true, if_false] at hacc2 ⊢
    cases c with
    | false =>
      simp only [Bool.false_eq_true, if_false] at ih
      simp only [Bool.or_false, Bool.false_eq_true, if_false]
      rw [ih, hacc2]
    | true =>
      simp only [if_true] at ih
      simp only [Bool.or_true, if_true]
      rw [ih]
      have hgd : alGetD h 0 A1 = alGetD h 0 A0 := by
        unfold alGetD
        rw [hacc2]
      rw [hgd, hx0 rfl]
      congr 1
      omega
  | true =>
    simp only [if_true] at hacc2 ⊢
    cases c with
    | false =>
      simp only [Bool.false_eq_true, if_false] at ih
      simp only [Bool.true_or, if_true]
      rw [ih, hacc2, hs0 rfl]
      congr 1
    | true =>
      simp only [if_true] at ih
      simp only [Bool.true_or, if_true]
      rw [ih]
      have hgd : alGetD h 0 A1 = alGetD h 0 A0 + x := by
        unfold alGetD
        rw [hacc2]
        rfl
      rw [hgd]
      congr 1
      omega

/-- Full characterization of the outer loop of `get_metric` over a count map
with distinct outer keys and distinct inner keys. -/
lemma gmOuter_char (st : EmAndF1Evaluator) :
    ∀ (l : Dict2 ℕ) (acc acc' : GMAcc),
      gmOuter st l acc = some acc' →
      (alKeys l).Nodup →
      (∀ q ∈ l, (alKeys q.2).Nodup) →
      (∀ t h, lookup2 t h acc'.scores_per_answer_type_and_head =
        match lookup2 t h l with
        | some c => some (cellView st t h c)
        | none => lookup2 t h acc.scores_per_answer_type_and_head)
      ∧ (∀ t, alGet? t acc'.scores_per_answer_type =
        match alGet? t l with
        | some inner => some (typeView st t inner)
        | none => alGet? t acc.scores_per_answer_type)
      ∧ (∀ h, alGet? h acc'.em_per_head = if headPresent l h
          then some (alGetD h 0 acc.em_per_head + headSum st.answer_type_head_em l h)
          else alGet? h acc.em_per_head)
      ∧ (∀ h, alGet? h acc'.f1_per_head = if headPresent l h
          then some (alGetD h 0 acc.f1_per_head + headSum st.answer_type_head_f1 l h)
          else alGet? h acc.f1_per_head)
      ∧ (∀ h, alGet? h acc'.p_per_head = if headPresent l h
          then some (alGetD h 0 acc.p_per_head + headSum st.answer_type_head_p l h)
          else alGet? h acc.p_per_head)
      ∧ (∀ h, alGet? h acc'.r_per_head = if headPresent l h
          then some (alGetD h 0 acc.r_per_head + headSum st.answer_type_head_r l h)
          else alGet? h acc.r_per_head)
      ∧ (∀ h, alGet? h acc'.count_per_head = if headPresent l h
          then some (alGetD h 0 acc.count_per_head + headCount l h)
          else alGet? h acc.count_per_head)
      ∧ ((alKeys acc.count_per_head).Nodup → (alKeys acc'.count_per_head).Nodup)
  | [], acc, acc', hgm, _, _ => by
    simp only [gmOuter, Option.some.injEq] at hgm
    subst hgm
    refine ⟨?_, ?_, ?_, ?_, ?_, ?_, ?_, fun h => h⟩
    · intro t h
      rfl
    · intro t
      rfl
    · intro h
      simp [headPresent]
    · intro h
      simp [headPresent]
    · intro h
      simp [headPresent]
    · intro h
      simp [headPresent]
    · intro h
      simp [headPresent]
  | (t0, inner) :: rest, acc, acc', hgm, hnd, hinnd => by
    have hnd' : (alKeys rest).Nodup := by
      rw [alKeys_cons] at hnd
      exact hnd.of_cons
    have ht0 : t0 ∉ alKeys rest := by
      rw [alKeys_cons] at hnd
      exact (List.nodup_cons.mp hnd).1
    have ht0none : alGet? t0 rest = none := by
      cases hx : alGet? t0 rest with
      | none => rfl
      | some y =>
        exfalso
        apply ht0
        rw [← alGet?_isSome_iff_mem_keys, hx]
        rfl
    have hinnernd : (alKeys inner).Nodup := hinnd (t0, inner) (List.mem_cons_self _ _)
    cases hin : gmInner st t0 inner ⟨0, 0, 0, 0, 0⟩ acc with
    | none =>
      exfalso
      unfold gmOuter at hgm
      rw [hin] at hgm
      cases hgm
    | some r =>
      obtain ⟨ta, acc1⟩ := r
      by_cases htc : ta.type_count = 0
      · exfalso
        unfold gmOuter at hgm
        rw [hin] at hgm
        simp only [pyDiv, htc, if_pos rfl, if_true] at hgm
        exact Option.noConfusion hgm
      · rw [gmOuter_cons_eq st t0 inner rest acc ta acc1 hin htc] at hgm
        obtain ⟨⟨gtc, gte, gtf, gtp, gtr⟩, gpt, gptph, gem, gf1, gpp, grr, gcph, gnd⟩ :=
          gmInner_char st t0 inner ⟨0, 0, 0, 0, 0⟩ acc ta acc1 hin hinnernd
        dsimp only at gtc gte gtf gtp gtr
        obtain ⟨ih1, ih2, ih3, ih4, ih5, ih6, ih7, ih8⟩ :=
          gmOuter_char st rest _ acc' hgm hnd' (fun q hq => hinnd q (List.mem_cons_of_mem _ hq))
        dsimp only at ih1 ih2 ih3 ih4 ih5 ih6 ih7 ih8
        have hcons : ∀ h, headPresent ((t0, inner) :: rest) h
            = ((alGet? h inner).isSome || headPresent rest h) := by
          intro h
          simp [headPresent]
        refine ⟨?_, ?_, ?_, ?_, ?_, ?_, ?_, ?_⟩
        · intro t h
          rw [ih1 t h]
          by_cases ht : t = t0
          · subst ht
            rw [show lookup2 t h rest = none from by
              unfold lookup2
              rw [ht0none]
              rfl]
            rw [gptph t h]
            rw [show lookup2 t h ((t, inner) :: rest) = alGet? h inner from by
              unfold lookup2
              rw [alGet?_cons t t inner rest, if_pos rfl]
              rfl]
            cases hx : alGet? h inner with
            | none => simp
            | some cv =>
              simp only [Option.isSome_some, and_true]
              rw [if_pos trivial]
              unfold cellView
              rw [alGetD_of_alGet?, hx]
              rfl
          · rw [show lookup2 t h ((t0, inner) :: rest) = lookup2 t h rest from by
              unfold lookup2
              rw [alGet?_cons t t0 inner rest, if_neg (fun hq => ht hq.symm)]]
            cases hx : lookup2 t h rest with
            | none =>
              rw [gptph t h]
              simp only [ht, false_and, if_false]
            | some c => rfl
        · intro t
          rw [ih2 t]
          by_cases ht : t = t0
          · subst ht
            rw [ht0none, alGet?_cons t t inner rest, if_pos rfl]
            rw [alGet?_alSet_self]
            unfold typeView typeSum
            rw [gtc, gte, gtf, gtp, gtr]
            simp
          · rw [alGet?_cons t t0 inner rest, if_neg (fun hq => ht hq.symm)]
            cases hx : alGet? t rest with
            | none =>
              rw [alGet?_alSet_ne t0 t _ (fun hq => ht hq.symm), gpt]
            | some inner' => rfl
        · intro h
          have hsum : headSum st.answer_type_head_em ((t0, inner) :: rest) h
              = (if (alGet? h inner).isSome then get2 t0 h 0 st.answer_type_head_em else 0)
                + headSum st.answer_type_head_em rest h := by
            simp [headSum]
          rw [hcons h, hsum]
          exact perHead_combine acc.em_per_head acc1.em_per_head acc'.em_per_head h
            ((alGet? h inner).isSome) (headPresent rest h)
            (get2 t0 h 0 st.answer_type_head_em) (headSum st.answer_type_head_em rest h)
            (gem h) (ih3 h) (headSum_of_not_present st.answer_type_head_em h rest)
        · intro h
          have hsum : headSum st.answer_type_head_f1 ((t0, inner) :: rest) h
              = (if (alGet? h inner).isSome then get2 t0 h 0 st.answer_type_head_f1 else 0)
                + headSum st.answer_type_head_f1 rest h := by
            simp [headSum]
          rw [hcons h, hsum]
          exact perHead_combine acc.f1_per_head acc1.f1_per_head acc'.f1_per_head h
            ((alGet? h inner).isSome) (headPresent rest h)
            (get2 t0 h 0 st.answer_type_head_f1) (headSum st.answer_type_head_f1 rest h)
            (gf1 h) (ih4 h) (headSum_of_not_present st.answer_type_head_f1 h rest)
        · intro h
          have hsum : headSum st.answer_type_head_p ((t0, inner) :: rest) h
              = (if (alGet? h inner).isSome then get2 t0 h 0 st.answer_type_head_p else 0)
                + headSum st.answer_type_head_p rest h := by
            simp [headSum]
          rw [hcons h, hsum]
          exact perHead_combine acc.p_per_head acc1.p_per_head acc'.p_per_head h
            ((alGet? h inner).isSome) (headPresent rest h)
            (get2 t0 h 0 st.answer_type_head_p) (headSum st.answer_type_head_p rest h)
            (gpp h) (ih5 h) (headSum_of_not_present st.answer_type_head_p h rest)
        · intro h
          have hsum : headSum st.answer_type_head_r ((t0, inner) :: rest) h
              = (if (alGet? h inner).isSome then get2 t0 h 0 st.answer_type_head_r else 0)
                + headSum st.answer_type_head_r rest h := by
            simp [headSum]
          rw [hcons h, hsum]
          exact perHead_combine acc.r_per_head acc1.r_per_head acc'.r_per_head h
            ((alGet? h inner).isSome) (headPresent rest h)
            (get2 t0 h 0 st.answer_type_head_r) (headSum st.answer_type_head_r rest h)
            (grr h) (ih6 h) (headSum_of_not_present st.answer_type_head_r h rest)
        · intro h
          have hsum : headCount ((t0, inner) :: rest) h
              = alGetD h 0 inner + headCount rest h := by
            simp [headCount]
          rw [hcons h, hsum]
          exact perHead_combineN acc.count_per_head acc1.count_per_head acc'.count_per_head h
            ((alGet? h inner).isSome) (headPresent rest h)
            (alGetD h 0 inner) (headCount rest h)
            (gcph h) (ih7 h) (headCount_of_not_present h rest)
            (by
              intro hb
              unfold alGetD
              cases hy : alGet? h inner with
              | none => rfl
              | some z =>
                rw [hy] at hb
                cases hb)
        · intro hnodup
          exact ih8 (gnd hnodup)

lemma phLoop_cons_eq (E F P R : List (String × ℚ)) (head : String) (count : ℕ)
    (rest : List (String × ℕ)) (res : List (String × ViewEntry)) (hc : count ≠ 0) :
    phLoop E F P R ((head, count) :: rest) res =
      phLoop E F P R rest (alSet head ⟨alGetD head 0 E / count, alGetD head 0 F / count,
        alGetD head 0 P / count, alGetD head 0 R / count, count⟩ res) := by
  simp only [phLoop, pyDiv, if_neg hc]

/-- Characterization of the final per-head loop of `get_metric`: on a count
list with distinct keys, the produced dict maps each listed head to its
sums-over-count entry and leaves other keys as in the initial result. -/
lemma phLoop_char (E F P R : List (String × ℚ)) :
    ∀ (cph : List (String × ℕ)) (res out : List (String × ViewEntry)),
      phLoop E F P R cph res = some out →
      (alKeys cph).Nodup →
      ∀ h, alGet? h out =
        match alGet? h cph with
        | some c => some ⟨alGetD h 0 E / c, alGetD h 0 F / c,
            alGetD h 0 P / c, alGetD h 0 R / c, c⟩
        | none => alGet? h res
  | [], res, out, hph, _, h => by
    simp only [phLoop, Option.some.injEq] at hph
    subst hph
    rfl
  | (head, count) :: rest, res, out, hph, hnd, h => by
    have hc : count ≠ 0 := by
      intro hc0
      subst hc0
      simp only [phLoop, pyDiv, if_pos rfl, if_true] at hph
      exact Option.noConfusion hph
    rw [phLoop_cons_eq E F P R head count rest res hc] at hph
    have hnd' : (alKeys rest).Nodup := by
      rw [alKeys_cons] at hnd
      exact hnd.of_cons
    have hhead : alGet? head rest = none := by
      rw [alKeys_cons] at hnd
      cases hx : alGet? head rest with
      | none => rfl
      | some y =>
        exfalso
        apply (List.nodup_cons.mp hnd).1
        rw [← alGet?_isSome_iff_mem_keys, hx]
        rfl
    have ih := phLoop_char E F P R rest _ out hph hnd' h
    by_cases hh : head = h
    · subst hh
      rw [ih, hhead]
      rw [show alGet? head ((head, count) :: rest) = some count from by
        rw [alGet?_cons head head count rest, if_pos rfl]]
      simp only [alGet?_alSet_self]
    · rw [ih]
      rw [show alGet? h ((head, count) :: rest) = alGet? h rest from by
        rw [alGet?_cons h head count rest, if_neg hh]]
      cases hx : alGet? h rest with
      | some c => rfl
      | none => simp only [alGet?_alSet_ne head h _ hh]

/-- The spec's per-head view: sums across all types observed for a head
divided by the total count for that head, with that count as support. -/
def headView (st : EmAndF1Evaluator) (l : Dict2 ℕ) (h : String) : ViewEntry :=
  ⟨headSum st.answer_type_head_em l h / headCount l h,
   headSum st.answer_type_head_f1 l h / headCount l h,
   headSum st.answer_type_head_p l h / headCount l h,
   headSum st.answer_type_head_r l h / headCount l h, headCount l h⟩

/-- C6: in the views returned by `get_metric`, every observed
`(type, head)` cell of the per-type-per-head dict equals the cell sums
divided by the cell count (with the cell count as support); every observed
type of the per-type dict equals the sums across that type's heads divided
by the type's total count (with that count as support); and every observed
head of the per-head dict equals the sums across all types for that head
divided by that head's total count (with that count as support).
Unobserved keys are absent from all three dicts. -/
theorem get_metric_breakdown_views (st : EmAndF1Evaluator) (b : Bool)
    (v : Views) (st2 : EmAndF1Evaluator)
    (hnd : (alKeys st.answer_type_head_count).Nodup)
    (hinnd : ∀ q ∈ st.answer_type_head_count, (alKeys q.2).Nodup)
    (hgm : get_metric st b = (some v, st2)) :
    (∀ t h, lookup2 t h v.scores_per_answer_type_and_head =
        match lookup2 t h st.answer_type_head_count with
        | some c => some (cellView st t h c)
        | none => none)
    ∧ (∀ t, alGet? t v.scores_per_answer_type =
        match alGet? t st.answer_type_head_count with
        | some inner => some (typeView st t inner)
        | none => none)
    ∧ (∀ h, alGet? h v.scores_per_head =
        if headPresent st.answer_type_head_count h
        then some (headView st st.answer_type_head_count h)
        else none) := by
  simp only [get_metric] at hgm
  cases ho : gmOuter st st.answer_type_head_count gmAccInit with
  | none =>
    simp only [ho] at hgm
    simp at hgm
  | some acc =>
    simp only [ho] at hgm
    cases hp : phLoop acc.em_per_head acc.f1_per_head acc.p_per_head acc.r_per_head
        acc.count_per_head [] with
    | none =>
      simp only [hp] at hgm
      simp at hgm
    | some sph =>
      simp only [hp] at hgm
      simp only [Prod.mk.injEq, Option.some.injEq] at hgm
      obtain ⟨hv, hst2⟩ := hgm
      subst hv
      obtain ⟨g1, g2, g3, g4, g5, g6, g7, g8⟩ :=
        gmOuter_char st st.answer_type_head_count gmAccInit acc ho hnd hinnd
      have hnodup : (alKeys acc.count_per_head).Nodup := g8 List.nodup_nil
      have hph := phLoop_char acc.em_per_head acc.f1_per_head acc.p_per_head
        acc.r_per_head acc.count_per_head [] sph hp hnodup
      refine ⟨?_, ?_, ?_⟩
      · intro t h
        dsimp only
        rw [g1 t h]
        cases hx : lookup2 t h st.answer_type_head_count with
        | some c => rfl
        | none => rfl
      · intro t
        dsimp only
        rw [g2 t]
        cases hx : alGet? t st.answer_type_head_count with
        | some inner => rfl
        | none => rfl
      · intro h
        dsimp only
        rw [hph h]
        by_cases hpr : headPresent st.answer_type_head_count h = true
        · have hcnt : alGet? h acc.count_per_head
              = some (headCount st.answer_type_head_count h) := by
            rw [g7 h, if_pos hpr]
            show some ((0 : ℕ) + _) = _
            rw [zero_add]
          have hem : alGetD h 0 acc.em_per_head
              = headSum st.answer_type_head_em st.answer_type_head_count h := by
            rw [alGetD_of_alGet?, g3 h, if_pos hpr, Option.getD_some]
            show (0 : ℚ) + _ = _
            rw [zero_add]
          have hf1v : alGetD h 0 acc.f1_per_head
              = headSum st.answer_type_head_f1 st.answer_type_head_count h := by
            rw [alGetD_of_alGet?, g4 h, if_pos hpr, Option.getD_some]
            show (0 : ℚ) + _ = _
            rw [zero_add]
          have hpv : alGetD h 0 acc.p_per_head
              = headSum st.answer_type_head_p st.answer_type_head_count h := by
            rw [alGetD_of_alGet?, g5 h, if_pos hpr, Option.getD_some]
            show (0 : ℚ) + _ = _
            rw [zero_add]
          have hrv : alGetD h 0 acc.r_per_head
              = headSum st.answer_type_head_r st.answer_type_head_count h := by
            rw [alGetD_of_alGet?, g6 h, if_pos hpr, Option.getD_some]
            show (0 : ℚ) + _ = _
            rw [zero_add]
          rw [hcnt, if_pos hpr]
          simp only [hem, hf1v, hpv, hrv]
          rfl
        · have hcnone : alGet? h acc.count_per_head = none := by
            rw [g7 h, if_neg hpr]
            rfl
          rw [hcnone, if_neg hpr]
          rfl

theorem get_metric_breakdown_views_witness :
    lookup2 "number" "count_head"
      (Views.scores_per_answer_type_and_head ⟨(0, 0, 0, 0), [], [], []⟩) = none := by
  have hv := get_metric_breakdown_views EmAndF1Evaluator.init false
    ⟨(0, 0, 0, 0), [], [], []⟩ EmAndF1Evaluator.init
    (by simp [EmAndF1Evaluator.init]) (by simp [EmAndF1Evaluator.init]) rfl
  exact (hv.1 "number" "count_head").trans rfl

/-! ### Merging two accumulators (C9) -/

/-- A split of a sequence into two disjoint subsequences, in any
interleaving order. -/
inductive Interleave {β : Type} : List β → List β → List β → Prop
  | nil : Interleave [] [] []
  | left {c : β} {xs ys l : List β} :
      Interleave xs ys l → Interleave (c :: xs) ys (c :: l)
  | right {c : β} {xs ys l : List β} :
      Interleave xs ys l → Interleave xs (c :: ys) (c :: l)

lemma interleave_length {β : Type} {xs ys l : List β} (h : Interleave xs ys l) :
    l.length = xs.length + ys.length := by
  induction h with
  | nil => rfl
  | left h ih => simp only [List.length_cons, ih]; omega
  | right h ih => simp only [List.length_cons, ih]; omega

lemma interleave_map_sum {β M : Type} [AddCommMonoid M] (f : β → M)
    {xs ys l : List β} (h : Interleave xs ys l) :
    (l.map f).sum = (xs.map f).sum + (ys.map f).sum := by
  induction h with
  | nil => simp
  | left h ih =>
    simp only [List.map_cons, List.sum_cons, ih]
    abel
  | right h ih =>
    simp only [List.map_cons, List.sum_cons, ih]
    abel

lemma interleave_filter {β : Type} (q : β → Bool) {xs ys l : List β}
    (h : Interleave xs ys l) :
    Interleave (xs.filter q) (ys.filter q) (l.filter q) := by
  induction h with
  | nil => exact .nil
  | @left c xs ys l h ih =>
    cases hc : q c with
    | true =>
      simp only [List.filter_cons, hc, if_true]
      exact .left ih
    | false =>
      simp only [List.filter_cons, hc, Bool.false_eq_true, if_false]
      exact ih
  | @right c xs ys l h ih =>
    cases hc : q c with
    | true =>
      simp only [List.filter_cons, hc, if_true]
      exact .right ih
    | false =>
      simp only [List.filter_cons, hc, Bool.false_eq_true, if_false]
      exact ih

lemma Interleave.eq_nil_iff {β : Type} {xs ys l : List β} (h : Interleave xs ys l) :
    l = [] ↔ xs = [] ∧ ys = [] := by
  cases h with
  | nil => simp
  | left h => simp
  | right h => simp

/-- Pairwise-add merge of two inner (head-keyed) dicts: keys of the first,
each with the second's value added, followed by the second's keys missing
from the first. -/
def mergeInner {γ : Type} [Zero γ] [Add γ] (i1 i2 : List (String × γ)) :
    List (String × γ) :=
  i1.map (fun p => (p.1, p.2 + alGetD p.1 0 i2))
    ++ i2.filter (fun q => !(alGet? q.1 i1).isSome)

/-- Pairwise-add merge of two two-level dicts, keyed by the
`(answer_type, head)` cell keys. -/
def merge2 {γ : Type} [Zero γ] [Add γ] (m1 m2 : Dict2 γ) : Dict2 γ :=
  m1.map (fun p => (p.1, mergeInner p.2 (alGetD p.1 [] m2)))
    ++ m2.filter (fun q => !(alGet? q.1 m1).isSome)

/-- The merged accumulator: pairwise add of the top-level sums and count
and of all five cell maps. -/
def mergeEv (s1 s2 : EmAndF1Evaluator) : EmAndF1Evaluator :=
  ⟨s1.total_em + s2.total_em, s1.total_f1 + s2.total_f1, s1.total_p + s2.total_p,
   s1.total_r + s2.total_r, s1.count + s2.count,
   merge2 s1.answer_type_head_em s2.answer_type_head_em,
   merge2 s1.answer_type_head_f1 s2.answer_type_head_f1,
   merge2 s1.answer_type_head_p s2.answer_type_head_p,
   merge2 s1.answer_type_head_r s2.answer_type_head_r,
   merge2 s1.answer_type_head_count s2.answer_type_head_count⟩

/-- Two accumulator states agree: equal top-level sums and count, and equal
contents at every `(answer_type, head)` cell of all five maps. -/
def EvEquiv (s1 s2 : EmAndF1Evaluator) : Prop :=
  s1.total_em = s2.total_em ∧ s1.total_f1 = s2.total_f1
    ∧ s1.total_p = s2.total_p ∧ s1.total_r = s2.total_r ∧ s1.count = s2.count
    ∧ ∀ t h,
      lookup2 t h s1.answer_type_head_em = lookup2 t h s2.answer_type_head_em
      ∧ lookup2 t h s1.answer_type_head_f1 = lookup2 t h s2.answer_type_head_f1
      ∧ lookup2 t h s1.answer_type_head_p = lookup2 t h s2.answer_type_head_p
      ∧ lookup2 t h s1.answer_type_head_r = lookup2 t h s2.answer_type_head_r
      ∧ lookup2 t h s1.answer_type_head_count = lookup2 t h s2.answer_type_head_count

lemma alGet?_append {γ : Type} (k : String) :
    ∀ l1 l2 : List (String × γ), alGet? k (l1 ++ l2) =
      match alGet? k l1 with
      | some v => some v
      | none => alGet? k l2
  | [], l2 => rfl
  | (k', v) :: rest, l2 => by
    simp only [List.cons_append, alGet?_cons]
    by_cases h : k' = k
    · simp [h]
    · simp [h, alGet?_append k rest l2]

lemma alGet?_keymap {γ δ : Type} (k : String) (g : String × γ → δ) :
    ∀ l : List (String × γ),
      alGet? k (l.map (fun p => (p.1, g p))) = (alGet? k l).map (fun v => g (k, v))
  | [] => rfl
  | (k', v) :: rest => by
    simp only [List.map_cons, alGet?_cons]
    by_cases h : k' = k
    · subst h
      simp
    · simp [h, alGet?_keymap k g rest]

lemma alGet?_filter_not_mem {γ δ : Type} (k : String) (m : List (String × δ)) :
    ∀ l : List (String × γ),
      alGet? k (l.filter (fun q => !(alGet? q.1 m).isSome))
        = if (alGet? k m).isSome then none else alGet? k l
  | [] => by simp
  | (k', v) :: rest => by
    have ih := alGet?_filter_not_mem (γ := γ) k m rest
    simp only [List.filter_cons]
    by_cases h : k' = k
    · subst h
      by_cases hm : (alGet? k' m).isSome = true
      · simp only [hm, Bool.not_true, Bool.false_eq_true, if_false, eq_self_iff_true,
          if_true]
        rw [ih, if_pos hm]
      · have hmf : (alGet? k' m).isSome = false := by
          cases hb : (alGet? k' m).isSome
          · rfl
          · exact absurd hb hm
        simp only [hmf, Bool.not_false, eq_self_iff_true, if_true, Bool.false_eq_true,
          if_false]
        rw [alGet?_cons, alGet?_cons, if_pos rfl, if_pos rfl]
    · by_cases hm : (alGet? k' m).isSome = true
      · simp only [hm, Bool.not_true, Bool.false_eq_true, if_false]
        rw [ih]
        rw [show alGet? k ((k', v) :: rest) = alGet? k rest from by
          rw [alGet?_cons, if_neg h]]
      · have hmf : (alGet? k' m).isSome = false := by
          cases hb : (alGet? k' m).isSome
          · rfl
          · exact absurd hb hm
        simp only [hmf, Bool.not_false, eq_self_iff_true, if_true]
        rw [show alGet? k ((k', v) :: List.filter (fun q => !(alGet? q.1 m).isSome) rest)
            = alGet? k (List.filter (fun q => !(alGet? q.1 m).isSome) rest) from by
          rw [alGet?_cons, if_neg h]]
        rw [ih]
        rw [show alGet? k ((k', v) :: rest) = alGet? k rest from by
          rw [alGet?_cons, if_neg h]]

lemma mergeInner_alGet? {γ : Type} [Zero γ] [Add γ] (h : String)
    (i1 i2 : List (String × γ)) :
    alGet? h (mergeInner i1 i2) =
      match alGet? h i1 with
      | some a => some (a + alGetD h 0 i2)
      | none => alGet? h i2 := by
  unfold mergeInner
  rw [alGet?_append, alGet?_keymap h (fun p => p.2 + alGetD p.1 0 i2) i1,
    alGet?_filter_not_mem h i1 i2]
  cases hx : alGet? h i1 with
  | some a => rfl
  | none => simp

lemma merge2_alGet? {γ : Type} [Zero γ] [Add γ] (t : String) (m1 m2 : Dict2 γ) :
    alGet? t (merge2 m1 m2) =
      match alGet? t m1 with
      | some i1 => some (mergeInner i1 (alGetD t [] m2))
      | none => alGet? t m2 := by
  unfold merge2
  rw [alGet?_append, alGet?_keymap t (fun p => mergeInner p.2 (alGetD p.1 [] m2)) m1,
    alGet?_filter_not_mem t m1 m2]
  cases hx : alGet? t m1 with
  | some i1 => rfl
  | none => simp

/-- The cell law of the merge: a cell of the merged map is the sum of the
two cells when the first map has it, and the second map's cell otherwise. -/
lemma merge2_lookup2 {γ : Type} [Zero γ] [Add γ] (t h : String) (m1 m2 : Dict2 γ) :
    lookup2 t h (merge2 m1 m2) =
      match lookup2 t h m1 with
      | some a => some (a + get2 t h 0 m2)
      | none => lookup2 t h m2 := by
  unfold lookup2
  rw [merge2_alGet?]
  cases hx : alGet? t m1 with
  | none => rfl
  | some i1 =>
    simp only [Option.some_bind]
    rw [mergeInner_alGet? h i1 (alGetD t [] m2)]
    have hg : alGetD h 0 (alGetD t [] m2) = get2 t h 0 m2 := by
      unfold get2 lookup2
      cases hz : alGet? t m2 with
      | none =>
        rw [show alGetD t [] m2 = ([] : List (String × γ)) from by
          rw [alGetD_of_alGet?, hz]
          rfl]
        rfl
      | some i2 =>
        rw [show alGetD t [] m2 = i2 from by
          rw [alGetD_of_alGet?, hz]
          rfl]
        rfl
    cases hy : alGet? h i1 with
    | some a =>
      rw [hg]
    | none =>
      show alGet? h (alGetD t [] m2) = (alGet? t m2).bind (alGet? h)
      cases hz : alGet? t m2 with
      | none =>
        rw [show alGetD t [] m2 = ([] : List (String × γ)) from by
          rw [alGetD_of_alGet?, hz]
          rfl]
        rfl
      | some i2 =>
        rw [show alGetD t [] m2 = i2 from by
          rw [alGetD_of_alGet?, hz]
          rfl]
        rfl

/-- The deltas of interleaved inputs interleave the inputs' deltas. -/
lemma deltas_interleave {π α : Type}
    (normalize : α → Except PyErr (List String × String))
    (metric_fn : π → List String → Except PyErr Score)
    {cs1 cs2 l : List (CallIn π α)} (hil : Interleave cs1 cs2 l) :
    ∀ {d1 d2 dl : List Delta},
      deltas normalize metric_fn cs1 = some d1 →
      deltas normalize metric_fn cs2 = some d2 →
      deltas normalize metric_fn l = some dl →
      Interleave d1 d2 dl := by
  induction hil with
  | nil =>
    intro d1 d2 dl h1 h2 h3
    simp only [deltas, Option.some.injEq] at h1 h2 h3
    subst h1
    subst h2
    subst h3
    exact .nil
  | @left c xs ys l hil ih =>
    intro d1 d2 dl h1 h2 h3
    cases hc : contrib normalize metric_fn c.1 c.2.1 with
    | none =>
      simp only [deltas, hc] at h1
      cases h1
    | some v =>
      obtain ⟨sc, t, g⟩ := v
      simp only [deltas, hc] at h1 h3
      cases hxs : deltas normalize metric_fn xs with
      | none =>
        simp only [hxs] at h1
        cases h1
      | some ds1 =>
        simp only [hxs, Option.some.injEq] at h1
        cases hl : deltas normalize metric_fn l with
        | none =>
          simp only [hl] at h3
          cases h3
        | some dsl =>
          simp only [hl, Option.some.injEq] at h3
          subst h1
          subst h3
          exact .left (ih hxs h2 hl)
  | @right c xs ys l hil ih =>
    intro d1 d2 dl h1 h2 h3
    cases hc : contrib normalize metric_fn c.1 c.2.1 with
    | none =>
      simp only [deltas, hc] at h2
      cases h2
    | some v =>
      obtain ⟨sc, t, g⟩ := v
      simp only [deltas, hc] at h2 h3
      cases hys : deltas normalize metric_fn ys with
      | none =>
        simp only [hys] at h2
        cases h2
      | some ds2 =>
        simp only [hys, Option.some.injEq] at h2
        cases hl : deltas normalize metric_fn l with
        | none =>
          simp only [hl] at h3
          cases h3
        | some dsl =>
          simp only [hl, Option.some.injEq] at h3
          subst h2
          subst h3
          exact .right (ih h1 hys hl)

lemma merge_cells {γ : Type} [AddCommMonoid γ]
    (q1 q2 : Prop) [Decidable q1] [Decidable q2] (S1 S2 : γ)
    (hS1 : q1 → S1 = 0) (hS2 : q2 → S2 = 0) :
    (match (if q1 then none else some (0 + S1) : Option γ) with
      | some a => some (a + ((if q2 then none else some (0 + S2) : Option γ)).getD 0)
      | none => (if q2 then none else some (0 + S2) : Option γ))
      = if q1 ∧ q2 then none else some (0 + (S1 + S2)) := by
  by_cases h1 : q1
  · by_cases h2 : q2
    · simp [h1, h2]
    · simp only [h1, if_true, if_neg h2, hS1 h1]
      rw [if_neg (fun hq => h2 hq.2)]
      congr 1
      abel
  · by_cases h2 : q2
    · simp only [if_neg h1, h2, if_true, Option.getD_none, hS2 h2]
      rw [if_neg (fun hq => h1 hq.1)]
      congr 1
      abel
    · simp only [if_neg h1, if_neg h2, Option.getD_some]
      rw [if_neg (fun hq => h1 hq.1)]
      congr 1
      abel

lemma merge_map_case (F : EmAndF1Evaluator → Dict2 ℚ) (f : Score → ℚ)
    (hF : ∀ st d, F (applyDelta st d) = upd2 d.2.1 d.2.2 0 (fun x => x + f d.1) (F st))
    (hFinit : F EmAndF1Evaluator.init = [])
    {d1 d2 dl : List Delta} (hdil : Interleave d1 d2 dl) (t h : String) :
    lookup2 t h (merge2 (F (d1.foldl applyDelta .init)) (F (d2.foldl applyDelta .init)))
      = lookup2 t h (F (dl.foldl applyDelta .init)) := by
  have m1 := foldl_applyDelta_map F f hF d1 .init t h
  have m2 := foldl_applyDelta_map F f hF d2 .init t h
  have ml := foldl_applyDelta_map F f hF dl .init t h
  rw [hFinit] at m1 m2 ml
  have hn : lookup2 t h ([] : Dict2 ℚ) = none := rfl
  have hz : get2 t h 0 ([] : Dict2 ℚ) = 0 := rfl
  rw [hn, hz] at m1 m2 ml
  have hg2 : get2 t h 0 (F (d2.foldl applyDelta EmAndF1Evaluator.init))
      = (if d2.filter (keyMatches t h) = [] then (none : Option ℚ)
          else some (0 + deltaCompSum f t h d2)).getD 0 := by
    unfold get2
    rw [m2]
  rw [merge2_lookup2, m1, m2, hg2, ml]
  have hsum : deltaCompSum f t h dl = deltaCompSum f t h d1 + deltaCompSum f t h d2 := by
    unfold deltaCompSum
    exact interleave_map_sum (fun d => f d.1) (interleave_filter (keyMatches t h) hdil)
  rw [hsum]
  have hqiff := (interleave_filter (keyMatches t h) hdil).eq_nil_iff
  simp only [hqiff]
  exact merge_cells _ _ _ _
    (fun hq => by
      unfold deltaCompSum
      rw [hq]
      rfl)
    (fun hq => by
      unfold deltaCompSum
      rw [hq]
      rfl)

lemma merge_map_caseN {d1 d2 dl : List Delta} (hdil : Interleave d1 d2 dl) (t h : String) :
    lookup2 t h (merge2 ((d1.foldl applyDelta .init).answer_type_head_count)
        ((d2.foldl applyDelta .init).answer_type_head_count))
      = lookup2 t h ((dl.foldl applyDelta .init).answer_type_head_count) := by
  have m1 := foldl_applyDelta_countmap d1 .init t h
  have m2 := foldl_applyDelta_countmap d2 .init t h
  have ml := foldl_applyDelta_countmap dl .init t h
  have hn : lookup2 t h EmAndF1Evaluator.init.answer_type_head_count = none := rfl
  have hz : get2 t h 0 EmAndF1Evaluator.init.answer_type_head_count = 0 := rfl
  rw [hn, hz] at m1 m2 ml
  have hg2 : get2 t h 0 ((d2.foldl applyDelta EmAndF1Evaluator.init).answer_type_head_count)
      = (if d2.filter (keyMatches t h) = [] then (none : Option ℕ)
          else some (0 + deltaCount t h d2)).getD 0 := by
    unfold get2
    rw [m2]
  rw [merge2_lookup2, m1, m2, hg2, ml]
  have hsum : deltaCount t h dl = deltaCount t h d1 + deltaCount t h d2 := by
    unfold deltaCount
    rw [interleave_length (interleave_filter (keyMatches t h) hdil)]
  rw [hsum]
  have hqiff := (interleave_filter (keyMatches t h) hdil).eq_nil_iff
  simp only [hqiff]
  exact merge_cells _ _ _ _
    (fun hq => by
      unfold deltaCount
      rw [hq]
      rfl)
    (fun hq => by
      unfold deltaCount
      rw [hq]
      rfl)

/-- C9: accumulation is purely additive and order-independent.  For any
split of a sequence of call inputs into two disjoint subsequences, in any
interleaving order, running two fresh accumulators (one per subsequence)
and merging them by pairwise adding the top-level sums and count and every
per-`(answer_type, head)` cell of the five maps yields the same state —
equal top-level sums and count and equal contents at every cell — as
running one fresh accumulator over the full sequence. -/
theorem merge_of_split_runs {π α : Type}
    (normalize : α → Except PyErr (List String × String))
    (metric_fn : π → List String → Except PyErr Score)
    (cs1 cs2 l : List (CallIn π α)) (s1 s2 s : EmAndF1Evaluator)
    (hil : Interleave cs1 cs2 l)
    (h1 : runCalls normalize metric_fn .init cs1 = some s1)
    (h2 : runCalls normalize metric_fn .init cs2 = some s2)
    (h : runCalls normalize metric_fn .init l = some s) :
    EvEquiv (mergeEv s1 s2) s := by
  obtain ⟨d1, hd1, hs1⟩ := (runCalls_char normalize metric_fn cs1 .init s1).mp h1
  obtain ⟨d2, hd2, hs2⟩ := (runCalls_char normalize metric_fn cs2 .init s2).mp h2
  obtain ⟨dl, hdl, hsl⟩ := (runCalls_char normalize metric_fn l .init s).mp h
  subst hs1
  subst hs2
  subst hsl
  have hdil : Interleave d1 d2 dl := deltas_interleave normalize metric_fn hil hd1 hd2 hdl
  obtain ⟨c1, e1, f1, p1, r1, -⟩ := foldl_applyDelta_scalars d1 .init
  obtain ⟨c2, e2, f2, p2, r2, -⟩ := foldl_applyDelta_scalars d2 .init
  obtain ⟨cl, el, fl, pl, rl, -⟩ := foldl_applyDelta_scalars dl .init
  refine ⟨?_, ?_, ?_, ?_, ?_, ?_⟩
  · show (d1.foldl applyDelta EmAndF1Evaluator.init).total_em
        + (d2.foldl applyDelta EmAndF1Evaluator.init).total_em
        = (dl.foldl applyDelta EmAndF1Evaluator.init).total_em
    rw [e1, e2, el, interleave_map_sum (fun d => d.1.em) hdil,
      show EmAndF1Evaluator.init.total_em = 0 from rfl]
    ring
  · show (d1.foldl applyDelta EmAndF1Evaluator.init).total_f1
        + (d2.foldl applyDelta EmAndF1Evaluator.init).total_f1
        = (dl.foldl applyDelta EmAndF1Evaluator.init).total_f1
    rw [f1, f2, fl, interleave_map_sum (fun d => d.1.f1) hdil,
      show EmAndF1Evaluator.init.total_f1 = 0 from rfl]
    ring
  · show (d1.foldl applyDelta EmAndF1Evaluator.init).total_p
        + (d2.foldl applyDelta EmAndF1Evaluator.init).total_p
        = (dl.foldl applyDelta EmAndF1Evaluator.init).total_p
    rw [p1, p2, pl, interleave_map_sum (fun d => d.1.p) hdil,
      show EmAndF1Evaluator.init.total_p = 0 from rfl]
    ring
  · show (d1.foldl applyDelta EmAndF1Evaluator.init).total_r
        + (d2.foldl applyDelta EmAndF1Evaluator.init).total_r
        = (dl.foldl applyDelta EmAndF1Evaluator.init).total_r
    rw [r1, r2, rl, interleave_map_sum (fun d => d.1.r) hdil,
      show EmAndF1Evaluator.init.total_r = 0 from rfl]
    ring
  · show (d1.foldl applyDelta EmAndF1Evaluator.init).count
        + (d2.foldl applyDelta EmAndF1Evaluator.init).count
        = (dl.foldl applyDelta EmAndF1Evaluator.init).count
    rw [c1, c2, cl, interleave_length hdil,
      show EmAndF1Evaluator.init.count = 0 from rfl]
    omega
  · intro t h'
    refine ⟨?_, ?_, ?_, ?_, ?_⟩
    · exact merge_map_case (fun st => st.answer_type_head_em) (fun sc => sc.em)
        (fun st d => rfl) rfl hdil t h'
    · exact merge_map_case (fun st => st.answer_type_head_f1) (fun sc => sc.f1)
        (fun st d => rfl) rfl hdil t h'
    · exact merge_map_case (fun st => st.answer_type_head_p) (fun sc => sc.p)
        (fun st d => rfl) rfl hdil t h'
    · exact merge_map_case (fun st => st.answer_type_head_r) (fun sc => sc.r)
        (fun st d => rfl) rfl hdil t h'
    · exact merge_map_caseN hdil t h'

theorem merge_of_split_runs_witness :
    ∃ s1 s2 s, runCalls normWS mfZero .init [("x", ["g"], "h")] = some s1
      ∧ runCalls normWS mfZero .init [("y", ["g"], "k")] = some s2
      ∧ runCalls normWS mfZero .init [("x", ["g"], "h"), ("y", ["g"], "k")] = some s
      ∧ EvEquiv (mergeEv s1 s2) s := by
  rcases h1 : runCalls normWS mfZero .init
      [(("x" : String), (["g"] : List String), ("h" : String))] with _ | s1
  · exact absurd h1 (by decide)
  rcases h2 : runCalls normWS mfZero .init
      [(("y" : String), (["g"] : List String), ("k" : String))] with _ | s2
  · exact absurd h2 (by decide)
  rcases h3 : runCalls normWS mfZero .init
      [(("x" : String), (["g"] : List String), ("h" : String)),
       ("y", ["g"], "k")] with _ | s
  · exact absurd h3 (by decide)
  exact ⟨s1, s2, s, rfl, rfl, rfl,
    merge_of_split_runs normWS mfZero [("x", ["g"], "h")] [("y", ["g"], "k")]
      [("x", ["g"], "h"), ("y", ["g"], "k")] s1 s2 s
      (.left (.right .nil)) h1 h2 h3⟩

end EmF1
